import Mathlib

/-!
# Verification of the FAQ-Scraper core (src/app.py)

This file gives a shallow embedding, in Lean 4, of the content discovery and
extraction pipeline of the FAQ scraper (class FAQScraper in src/app.py), and
settles the frozen claims about it.

Modelling conventions:
* Python strings are Lean Strings; character-level operations work on the
  underlying character list.  Python str.lower is modelled by ASCII
  lowercasing (the inputs of interest to the claims are ASCII; non-ASCII
  letters are left unchanged, as the Char.toLower of a non-ASCII scalar).
* Python machine integers / counts are Nat.
* urllib.parse (urlparse / urljoin) is embedded following the CPython
  implementation of urlsplit, urlparse (including the params split),
  urlunparse and urljoin, restricted to the str code path, minus the
  bracketed-host validity exceptions.  CPython removes "\t\r\n" from the
  URL before splitting; that sanitisation is included.
* The float comparison (non_ascii / total) < 0.3 in _is_english is embedded
  as the exact rational comparison 10 * non_ascii < 3 * total; for every
  realistic string length the IEEE-754 comparison agrees with the rational
  one (verified separately against CPython for boundary counts).
* The fetch collaborator (requests + BeautifulSoup in _fetch_page_sync) is
  external per the spec; it is modelled as a deterministic function from a
  URL to an optional fetched page, a page being the list of question/answer
  pairs its document yields to _add_faq (in emission order) together with
  the raw (href, anchor-text) pairs of its anchors.  The derivation of the
  pairs from a document tree is modelled separately (Node, accordionPairs,
  paragraphPairs) for the claims about the extraction strategies.
* Python while-loops are embedded with explicit fuel where the loop is not
  structurally recursive; the fuel chosen is provably sufficient, so the
  embedded function equals the loop's limit behaviour.
-/

/-! ## Python string primitives -/

/-- Whitespace as Python str.strip / regex \s sees it (ASCII portion). -/
def pyIsSpace (c : Char) : Bool :=
  c = ' ' || c = '\t' || c = '\n' || c = '\x0d' || c = '\x0b' || c = '\x0c'

/-- Drop leading characters satisfying p (list form). -/
def dropLeading (p : Char → Bool) (l : List Char) : List Char :=
  l.dropWhile p

/-- Drop trailing characters satisfying p (list form). -/
def dropTrailing (p : Char → Bool) (l : List Char) : List Char :=
  (l.reverse.dropWhile p).reverse

/-- Python str.strip(chars): remove leading and trailing characters from the set. -/
def pyStripP (p : Char → Bool) (s : String) : String :=
  ⟨dropTrailing p (dropLeading p s.data)⟩

/-- Python str.strip() with no argument (whitespace). -/
def pyStrip (s : String) : String := pyStripP pyIsSpace s

/-- Python str.rstrip(chars). -/
def pyRstripP (p : Char → Bool) (s : String) : String :=
  ⟨dropTrailing p s.data⟩

/-- Python str.lstrip(chars). -/
def pyLstripP (p : Char → Bool) (s : String) : String :=
  ⟨dropLeading p s.data⟩

/-- ASCII lowercasing of one character (models Python str.lower on ASCII). -/
def lowerChar (c : Char) : Char :=
  if 65 ≤ c.toNat ∧ c.toNat ≤ 90 then Char.ofNat (c.toNat + 32) else c

/-- ASCII lowercasing of a string. -/
def lowerStr (s : String) : String := ⟨s.data.map lowerChar⟩

/-- Does the haystack start with the needle (list form)? -/
def listStarts : List Char → List Char → Bool
  | [], _ => true
  | _ :: _, [] => false
  | a :: as, b :: bs => a == b && listStarts as bs

/-- Does the haystack contain the needle as a contiguous sublist? -/
def listHasSub (needle : List Char) : List Char → Bool
  | [] => listStarts needle []
  | c :: cs => listStarts needle (c :: cs) || listHasSub needle cs

/-- Python "needle in s" substring test. -/
def strContains (s needle : String) : Bool := listHasSub needle.data s.data

/-- Python s.startswith(t). -/
def strStarts (s t : String) : Bool := listStarts t.data s.data

/-- Python s.endswith(t). -/
def strEnds (s t : String) : Bool := listStarts t.data.reverse s.data.reverse

/-- Index of the first occurrence of the needle, if any (Python str.find ≥ 0). -/
def listFindSub (needle : List Char) : List Char → Option Nat
  | [] => if listStarts needle [] then some 0 else none
  | c :: cs =>
    if listStarts needle (c :: cs) then some 0
    else (listFindSub needle cs).map (· + 1)

/-- Split a character list on a separator character (Python str.split(sep)). -/
def splitOnChar (sep : Char) (l : List Char) : List (List Char) :=
  match l with
  | [] => [[]]
  | c :: cs =>
    let rest := splitOnChar sep cs
    if c = sep then [] :: rest
    else
      match rest with
      | [] => [[c]]
      | r :: rs => (c :: r) :: rs

/-- Join character lists with a separator character (Python sep.join). -/
def joinWithChar (sep : Char) : List (List Char) → List Char
  | [] => []
  | [x] => x
  | x :: xs => x ++ sep :: joinWithChar sep xs

/-- Python " ".join over strings. -/
def joinSpace (l : List String) : String :=
  ⟨joinWithChar ' ' (l.map String.data)⟩

/-- Count of characters of s satisfying p (Python sum of a generator). -/
def countChars (p : Char → Bool) (s : String) : Nat :=
  (s.data.filter p).length

/-- ASCII alphabetic character (Python c.isascii() and c.isalpha() on ASCII). -/
def isAsciiAlpha (c : Char) : Bool :=
  (97 ≤ c.toNat ∧ c.toNat ≤ 122) || (65 ≤ c.toNat ∧ c.toNat ≤ 90)

/-- ASCII digit. -/
def isAsciiDigit (c : Char) : Bool := 48 ≤ c.toNat ∧ c.toNat ≤ 57

/-! ## _is_english (src/app.py lines 122-133) -/

/-- Number of ASCII letters of the string. -/
def asciiLetterCount (s : String) : Nat := countChars isAsciiAlpha s

/-- Number of non-ASCII characters of the string. -/
def nonAsciiCount (s : String) : Nat := countChars (fun c => !(c.toNat < 128)) s

/-- Embedding of FAQScraper._is_english.  The CPython float test
(non_ascii / total) < 0.3 is embedded as the exact rational comparison. -/
def isEnglish (text : String) : Bool :=
  if text = "" then false
  else
    let ascii_letters := asciiLetterCount text
    let non_ascii := nonAsciiCount text
    let total_letters := ascii_letters + non_ascii
    if total_letters = 0 then true
    else 10 * non_ascii < 3 * total_letters

/-! ## _normalize_text (src/app.py lines 104-120) -/

/-- One pass of re.sub(r'\s+', ' ', text): every maximal whitespace run
becomes a single space.  The Bool records whether the previous character
belonged to a whitespace run. -/
def collapseWsGo : Bool → List Char → List Char
  | _, [] => []
  | inRun, c :: cs =>
    if pyIsSpace c then
      if inRun then collapseWsGo true cs else ' ' :: collapseWsGo true cs
    else c :: collapseWsGo false cs

def collapseWs (l : List Char) : List Char := collapseWsGo false l

/-- The decoration characters of text.strip('•·-–—*#'). -/
def isDecoChar (c : Char) : Bool :=
  c = '•' || c = '·' || c = '-' || c = '–' || c = '—' || c = '*' || c = '#'

/-- First position (if any) of a suffix satisfying p. -/
def findPos (p : List Char → Bool) : List Char → Option Nat
  | [] => if p [] then some 0 else none
  | c :: cs => if p (c :: cs) then some 0 else (findPos p cs).map (· + 1)

/-- re.sub(needle ++ '.*$', '', t, IGNORECASE) for a literal lowercase
needle: cut the text from the first case-insensitive occurrence on. -/
def cutCaseless (needle : String) (t : String) : String :=
  match listFindSub needle.data (lowerStr t).data with
  | some i => ⟨t.data.take i⟩
  | none => t

/-- Matcher for the head of '© \d{4}' (ASCII digits; Python \d also accepts
other Unicode digits, which do not occur in the claims). -/
def copyrightAt : List Char → Bool
  | '©' :: ' ' :: a :: b :: c :: d :: _ =>
    isAsciiDigit a && isAsciiDigit b && isAsciiDigit c && isAsciiDigit d
  | _ => false

/-- re.sub(r'© \d{4}.*$', '', t, IGNORECASE). -/
def cutCopyright (t : String) : String :=
  match findPos copyrightAt t.data with
  | some i => ⟨t.data.take i⟩
  | none => t

/-- Matcher for 'privacy policy.*terms' at the head of a lowered suffix. -/
def privacyAt (l : List Char) : Bool :=
  listStarts "privacy policy".data l && listHasSub "terms".data (l.drop 14)

/-- re.sub(r'Privacy Policy.*Terms.*$', '', t, IGNORECASE). -/
def cutPrivacy (t : String) : String :=
  match findPos privacyAt (lowerStr t).data with
  | some i => ⟨t.data.take i⟩
  | none => t

/-- re.sub(r'To Top$', '', t, IGNORECASE). -/
def cutToTop (t : String) : String :=
  if strEnds (lowerStr t) "to top" then ⟨t.data.take (t.data.length - 6)⟩ else t

/-- Embedding of FAQScraper._normalize_text: collapse whitespace and trim,
strip decoration characters, remove each trailing-noise pattern in the
source's order, and trim again. -/
def normalizeText (text : String) : String :=
  if text = "" then ""
  else
    let t1 := pyStripP isDecoChar (pyStrip ⟨collapseWs text.data⟩)
    let t2 := cutToTop (cutPrivacy (cutCaseless "all rights reserved"
                (cutCopyright (cutCaseless "sign up to get"
                  (cutCaseless "subscribe newsletter" t1)))))
    pyStrip t2

/-! ## _add_faq (src/app.py lines 135-164) -/

/-- re.sub(r'^[bB]?[\"\']?', '', q): remove an optional leading b/B and an
optional following quote character. -/
def stripStringPreChars : List Char → List Char
  | [] => []
  | c :: cs =>
    if c = 'b' ∨ c = 'B' then
      match cs with
      | q :: rest => if q = '"' ∨ q = '\'' then rest else cs
      | [] => []
    else if c = '"' ∨ c = '\'' then cs
    else c :: cs

/-- Separator class [\)\.\:\s] of the leading-ordinal regex. -/
def numSepChar (c : Char) : Bool := c = ')' || c = '.' || c = ':' || pyIsSpace c

/-- re.sub(r'^\d+[\)\.\:\s]*(?=[A-Za-z])', '', s): drop a maximal leading
digit run and following separator run when an ASCII letter follows
(backtracking cannot produce any other match, since shorter runs leave a
digit or separator, never a letter, under the lookahead). -/
def stripLeadingNum (s : String) : String :=
  match s.data with
  | [] => s
  | c :: _ =>
    if isAsciiDigit c then
      let r2 := (s.data.dropWhile isAsciiDigit).dropWhile numSepChar
      match r2 with
      | d :: _ => if isAsciiAlpha d then ⟨r2⟩ else s
      | [] => s
    else s

/-- The cleaned question of _add_faq (lines 145-146): string-prefix strip,
trim, leading-ordinal strip, trim. -/
def cleanQuestion (question : String) : String :=
  pyStrip (stripLeadingNum (pyStrip ⟨stripStringPreChars question.data⟩))

/-- The navigational/noise substrings rejected at lines 150-156. -/
def skipQuestionPatterns : List String :=
  ["forgot your password", "reset password", "sign in", "log in",
   "create account", "register", "subscribe", "newsletter",
   "contact us", "get in touch"]

/-- One FAQ record: the unit of output. -/
structure Faq where
  question : String
  answer : String
  sourceUrl : String
deriving Repr, DecidableEq

/-- The mutable crawl-session state of FAQScraper (visited_urls, all_faqs,
seen_questions, faq_page_found).  The Python sets are lists without
duplicates (set.add is modelled by a membership-guarded append). -/
structure ScrapeState where
  visitedUrls : List String
  allFaqs : List Faq
  seenQuestions : List String
  faqPageFound : Bool
deriving Repr, DecidableEq

/-- The dedup key of a stored record: its case-folded, trimmed question. -/
def recKey (r : Faq) : String := pyStrip (lowerStr r.question)

/-- Embedding of FAQScraper._add_faq. -/
def addFaq (s : ScrapeState) (question answer sourceUrl : String) : ScrapeState :=
  if !(isEnglish question) || !(isEnglish answer) then s
  else
    let q := cleanQuestion question
    let qNorm := pyStrip (lowerStr q)
    if skipQuestionPatterns.any (fun p => strContains qNorm p) then s
    else if qNorm ≠ "" && !(s.seenQuestions.contains qNorm) && decide (q.length > 5) then
      { s with seenQuestions := s.seenQuestions ++ [qNorm],
               allFaqs := s.allFaqs ++ [⟨q, answer, sourceUrl⟩] }
    else s

/-! ## urllib.parse embedding (the collaborator used by the URL
Normalizer/Validator), following the CPython str implementation of
urlsplit, urlparse, urlunsplit, urlunparse and urljoin. -/

/-- The six components of urlparse. -/
structure UrlParts where
  scheme : String
  netloc : String
  path : String
  params : String
  query : String
  fragment : String
deriving Repr, DecidableEq

/-- Characters allowed after the first character of a scheme. -/
def schemeChar (c : Char) : Bool :=
  isAsciiAlpha c || isAsciiDigit c || c = '+' || c = '-' || c = '.'

/-- Characters at which the netloc of a '//'-URL ends. -/
def netlocDelim (c : Char) : Bool := c = '/' || c = '?' || c = '#'

/-- Characters that survive the CPython removal of unsafe bytes. -/
def urlOkChar (c : Char) : Bool := !(c = '\t' || c = '\x0d' || c = '\n')

/-- Is the first character an ASCII letter? -/
def headIsAlpha : List Char → Bool
  | c :: _ => isAsciiAlpha c
  | [] => false

/-- CPython urlsplit on str input: remove unsafe bytes, split off a scheme
when the prefix before the first ':' is a valid scheme, then netloc after
'//', then fragment at the first '#', then query at the first '?'. -/
def urlsplitModel (url : String) (defaultScheme : String) :
    String × String × String × String × String :=
  let ud := url.data.filter urlOkChar
  let schemeRest : String × List Char :=
    match ud.findIdx? (· = ':') with
    | some i =>
      if decide (0 < i) && headIsAlpha ud && ((ud.take i).drop 1).all schemeChar then
        (⟨(ud.take i).map lowerChar⟩, ud.drop (i + 1))
      else (defaultScheme, ud)
    | none => (defaultScheme, ud)
  let scheme := schemeRest.1
  let netlocRest : String × List Char :=
    if listStarts ['/', '/'] schemeRest.2 then
      let after := schemeRest.2.drop 2
      (⟨after.takeWhile (fun c => !netlocDelim c)⟩,
       after.dropWhile (fun c => !netlocDelim c))
    else ("", schemeRest.2)
  let netloc := netlocRest.1
  let fragSplit : List Char × String :=
    match netlocRest.2.findIdx? (· = '#') with
    | some i => (netlocRest.2.take i, ⟨netlocRest.2.drop (i + 1)⟩)
    | none => (netlocRest.2, "")
  let fragment := fragSplit.2
  let querySplit : List Char × String :=
    match fragSplit.1.findIdx? (· = '?') with
    | some i => (fragSplit.1.take i, ⟨fragSplit.1.drop (i + 1)⟩)
    | none => (fragSplit.1, "")
  (scheme, netloc, ⟨querySplit.1⟩, querySplit.2, fragment)

/-- CPython _splitparams: split 'params' from the last path segment. -/
def splitParams (u : List Char) : List Char × List Char :=
  if u.contains '/' then
    let j := match u.reverse.findIdx? (· = '/') with
             | some k => u.length - 1 - k
             | none => 0
    match ((u.drop j).findIdx? (· = ';')).map (· + j) with
    | some i => (u.take i, u.drop (i + 1))
    | none => (u, [])
  else
    match u.findIdx? (· = ';') with
    | some i => (u.take i, u.drop (i + 1))
    | none => (u, [])

/-- CPython urlparse on str input (urlsplit plus the params split). -/
def urlparseModel (url : String) (defaultScheme : String := "") : UrlParts :=
  let (scheme, netloc, path, query, fragment) := urlsplitModel url defaultScheme
  if path.data.contains ';' then
    let (p, par) := splitParams path.data
    ⟨scheme, netloc, ⟨p⟩, ⟨par⟩, query, fragment⟩
  else
    ⟨scheme, netloc, path, "", query, fragment⟩

/-- CPython urlunsplit. -/
def urlunsplitModel (scheme netloc url query fragment : String) : String :=
  let u1 :=
    if netloc ≠ "" ∨ (url ≠ "" ∧ strStarts url "//") then
      let u0 := if url ≠ "" ∧ ¬ strStarts url "/" then "/" ++ url else url
      "//" ++ netloc ++ u0
    else url
  let u2 := if scheme ≠ "" then scheme ++ ":" ++ u1 else u1
  let u3 := if query ≠ "" then u2 ++ "?" ++ query else u2
  if fragment ≠ "" then u3 ++ "#" ++ fragment else u3

/-- CPython urlunparse. -/
def urlunparseModel (p : UrlParts) : String :=
  let u := if p.params ≠ "" then p.path ++ ";" ++ p.params else p.path
  urlunsplitModel p.scheme p.netloc u p.query p.fragment

/-- Schemes that allow relative resolution (CPython uses_relative). -/
def usesRelative : List String :=
  ["", "ftp", "http", "gopher", "nntp", "imap", "wais", "file", "https",
   "shttp", "mms", "prospero", "rtsp", "rtspu", "sftp", "svn", "svn+ssh",
   "ws", "wss"]

/-- Schemes that use a network location (CPython uses_netloc). -/
def usesNetloc : List String :=
  ["", "ftp", "http", "gopher", "nntp", "telnet", "imap", "wais", "file",
   "mms", "https", "shttp", "snews", "prospero", "rtsp", "rtspu", "rsync",
   "svn", "svn+ssh", "sftp", "nfs", "git", "git+ssh", "ws", "wss"]

/-- filter(None, segments[1:-1]): drop empty segments except the first and
last elements (helper: keep the final element, filter before it). -/
def keepLastFilter : List (List Char) → List (List Char)
  | [] => []
  | [last] => [last]
  | y :: ys => if y = [] then keepLastFilter ys else y :: keepLastFilter ys

def filterMiddle : List (List Char) → List (List Char)
  | [] => []
  | x :: rest => x :: keepLastFilter rest

/-- The '.'/'..' resolution loop of CPython urljoin (accumulator reversed;
popping an empty accumulator is a no-op, like the caught IndexError). -/
def resolveGo (acc : List (List Char)) : List (List Char) → List (List Char)
  | [] => acc.reverse
  | seg :: rest =>
    if seg = ['.', '.'] then resolveGo acc.tail rest
    else if seg = ['.'] then resolveGo acc rest
    else resolveGo (seg :: acc) rest

/-- CPython urljoin on str input. -/
def urljoinModel (base url : String) : String :=
  if base = "" then url
  else if url = "" then base
  else
    let b := urlparseModel base ""
    let u := urlparseModel url b.scheme
    if u.scheme ≠ b.scheme ∨ ¬ usesRelative.contains u.scheme then url
    else if usesNetloc.contains u.scheme ∧ u.netloc ≠ "" then
      urlunparseModel ⟨u.scheme, u.netloc, u.path, u.params, u.query, u.fragment⟩
    else
      let netloc := if usesNetloc.contains u.scheme then b.netloc else u.netloc
      if u.path = "" ∧ u.params = "" then
        let query := if u.query = "" then b.query else u.query
        urlunparseModel ⟨u.scheme, netloc, b.path, b.params, query, u.fragment⟩
      else
        let baseParts0 := splitOnChar '/' b.path.data
        let baseParts :=
          if baseParts0.getLast? ≠ some [] then baseParts0.dropLast else baseParts0
        let segs :=
          if strStarts u.path "/" then splitOnChar '/' u.path.data
          else filterMiddle (baseParts ++ splitOnChar '/' u.path.data)
        let resolved0 := resolveGo [] segs
        let resolved :=
          if segs.getLast? = some ['.'] ∨ segs.getLast? = some ['.', '.'] then
            resolved0 ++ [[]]
          else resolved0
        let newPath := joinWithChar '/' resolved
        let finalPath := if newPath = [] then "/" else (⟨newPath⟩ : String)
        urlunparseModel ⟨u.scheme, netloc, finalPath, u.params, u.query, u.fragment⟩

/-! ## URL Normalizer/Validator (src/app.py lines 30-69) and
FAQ Signal Detector (lines 89-102, 166-175) -/

/-- Embedding of FAQScraper._normalize_url: resolve against the base URL
unless already absolute http(s), strip the trailing slash from the path
(root path becomes "/"), and rebuild scheme://netloc+path, discarding
params, query and fragment. -/
def normalizeUrl (base url : String) : String :=
  let url' :=
    if strStarts url "http://" || strStarts url "https://" then url
    else urljoinModel base url
  let parsed := urlparseModel url' ""
  let path :=
    let p := pyRstripP (· = '/') parsed.path
    if p = "" then "/" else p
  parsed.scheme ++ "://" ++ parsed.netloc ++ path

/-- The substring skip patterns of _is_valid_internal_url (the regexes
without a '$' anchor, all literal). -/
def skipUrlSubstrings : List String :=
  ["utm_", "fbclid", "gclid", "#", "javascript:", "mailto:", "tel:"]

/-- The anchored skip patterns r'\.pdf$' etc., i.e. case-insensitive
suffixes. -/
def skipUrlSuffixes : List String :=
  [".pdf", ".jpg", ".png", ".gif", ".svg", ".css", ".js", ".zip",
   ".mp4", ".mp3", ".doc", ".xls"]

/-- Embedding of FAQScraper._is_valid_internal_url. -/
def isValidInternalUrl (domain url : String) : Bool :=
  if url = "" then false
  else
    let parsed := urlparseModel url ""
    if parsed.scheme ≠ "" ∧ ¬(parsed.scheme = "http" ∨ parsed.scheme = "https") then
      false
    else if skipUrlSubstrings.any (fun p => strContains (lowerStr url) p)
         || skipUrlSuffixes.any (fun p => strEnds (lowerStr url) p) then
      false
    else if parsed.netloc ≠ "" ∧ parsed.netloc ≠ domain then false
    else
      let path := pyStripP (· = '/') parsed.path
      if path ≠ "" ∧ (splitOnChar '/' path.data).length > 1 then false
      else true

/-- The URL-path patterns of _is_faq_link. -/
def faqUrlPatterns : List String :=
  ["/faq", "/faqs", "/frequently-asked", "/help/faq", "/support/faq",
   "faq.", "/questions", "/q-and-a", "/qa"]

/-- The link-text patterns of _is_faq_link. -/
def faqTextPatterns : List String :=
  ["faq", "frequently asked", "questions", "q&a", "help center"]

/-- Embedding of FAQScraper._is_faq_link. -/
def isFaqLink (url linkText : String) : Bool :=
  faqUrlPatterns.any (fun p => strContains (lowerStr url) p)
  || faqTextPatterns.any (fun p => strContains (lowerStr linkText) p)

/-! ## Parsed-document model (the BeautifulSoup tree as the extractor sees
it: tag elements with class tokens and children, and text nodes).  Only
what the extraction strategies of _extract_from_faq_element and
_extract_from_paragraph_list consult is represented. -/

inductive Node where
  | textNode : String → Node
  | elem : String → List String → List Node → Node

/-! nodeTexts: all descendant strings of a node, in document order
(bs4 Tag._all_strings without stripping). -/
mutual
def nodeTexts : Node → List String
  | .textNode s => [s]
  | .elem _ _ children => nodesTexts children
def nodesTexts : List Node → List String
  | [] => []
  | n :: ns => nodeTexts n ++ nodesTexts ns
end

/-- bs4 get_text(strip=True): strip each descendant string, drop the ones
that become empty, and concatenate. -/
def getTextStrip (n : Node) : String :=
  ⟨(((nodeTexts n).map pyStrip).filter (· ≠ "")).map String.data |>.flatten⟩

/-! nodeDescendants: all descendants of a node in document order (preorder,
excluding the node itself), as bs4 .descendants. -/
mutual
def nodeDescendants : Node → List Node
  | .textNode _ => []
  | .elem _ _ children => nodesWithDesc children
def nodesWithDesc : List Node → List Node
  | [] => []
  | n :: ns => n :: nodeDescendants n ++ nodesWithDesc ns
end

/-! Structural equality of nodes (bs4 Tag.__eq__ / __ne__ compare name,
attributes and contents recursively). -/
mutual
def nodeBeq : Node → Node → Bool
  | .textNode a, .textNode b => a == b
  | .elem t1 c1 k1, .elem t2 c2 k2 => t1 == t2 && c1 == c2 && nodesBeq k1 k2
  | _, _ => false
def nodesBeq : List Node → List Node → Bool
  | [], [] => true
  | a :: as, b :: bs => nodeBeq a b && nodesBeq as bs
  | _, _ => false
end

def nodeTag : Node → Option String
  | .textNode _ => none
  | .elem t _ _ => some t

def isElemNode : Node → Bool
  | .textNode _ => false
  | .elem _ _ _ => true

def childrenOf : Node → List Node
  | .textNode _ => []
  | .elem _ _ cs => cs

/-- bs4 find_all(tag): descendant elements with the given name, in document
order. -/
def findAllTag (tag : String) (n : Node) : List Node :=
  (nodeDescendants n).filter (fun c => nodeTag c = some tag)

/-- bs4 find(tag): the first such descendant. -/
def findFirstTag (tag : String) (n : Node) : Option Node :=
  (findAllTag tag n).head?

/-! ## Extraction strategies (src/app.py lines 262-286 and 304-317) -/

/-- The pairs emitted by Pattern 1 of _extract_from_faq_element
(details/summary accordions, lines 307-317): for each descendant details
element that contains a summary, the question is the summary text and the
answer joins the text of every direct child that is an element distinct
from the summary (the hasattr(child, 'get_text') test selects tag
children; bs4 ==/!= is structural equality); the pair is emitted when both
cleaned sides are non-empty.  The source calls _add_faq immediately per
pair; emission order is preserved, so folding _add_faq over this list is
the same computation. -/
def accordionPairs (root : Node) : List (String × String) :=
  (findAllTag "details" root).filterMap fun d =>
    match findFirstTag "summary" d with
    | none => none
    | some summary =>
      let question := normalizeText (getTextStrip summary)
      let answer_parts := (childrenOf d).filterMap fun child =>
        if !(nodeBeq child summary) && isElemNode child then some (getTextStrip child)
        else none
      let answer := normalizeText (joinSpace answer_parts)
      if question ≠ "" ∧ answer ≠ "" then some (question, answer) else none

/-- Fold _add_faq over emitted (question, answer) pairs from one page. -/
def extractPairs (s : ScrapeState) (pairs : List (String × String))
    (url : String) : ScrapeState :=
  pairs.foldl (fun st p => addFaq st p.1 p.2 url) s

/-- Pattern 1 of _extract_from_faq_element as a state transformer. -/
def extractAccordion (s : ScrapeState) (root : Node) (url : String) : ScrapeState :=
  extractPairs s (accordionPairs root) url

/-- The interrogative/modal sentence starters of the paragraph strategy. -/
def questionWords : List String :=
  ["can ", "do ", "does ", "is ", "are ", "how ", "what ", "why ",
   "when ", "where ", "will ", "should "]

/-- Does a paragraph text look like a question (ends with '?' or starts
with a question word, case-insensitively)? -/
def looksLikeQuestion (t : String) : Bool :=
  strEnds t "?" || questionWords.any (fun w => strStarts (lowerStr t) w)

/-- The while-loop of _extract_from_paragraph_list (lines 262-286) over the
stripped texts of the paragraph elements, with explicit fuel.  Each
iteration consumes at least one list element, so fuel = initial length is
sufficient and the function equals the loop. -/
def paragraphPairsGo : Nat → List String → List (String × String)
  | 0, _ => []
  | _, [] => []
  | fuel + 1, p :: rest =>
    if looksLikeQuestion p then
      let answerTexts := rest.takeWhile (fun t => !looksLikeQuestion t)
      let remaining := rest.drop answerTexts.length
      let question := normalizeText p
      let answer := normalizeText (joinSpace answerTexts)
      (if question ≠ "" ∧ answer ≠ "" ∧ answer.length > 20 then [(question, answer)]
       else []) ++ paragraphPairsGo fuel remaining
    else paragraphPairsGo fuel rest

/-- The pairs _extract_from_paragraph_list passes to _add_faq, in order. -/
def paragraphPairs (paragraphs : List String) : List (String × String) :=
  paragraphPairsGo paragraphs.length paragraphs

/-! ## Crawl Orchestrator (scrape_sync, src/app.py lines 462-531) -/

/-- What the fetch collaborator yields for a URL that answers with a
successful status: the question/answer pairs its document yields to
_add_faq (in emission order, across all strategies) and the raw
(href, anchor-text) pairs of its anchors, anchor text being the
get_text(strip=True) rendering. -/
structure FetchResult where
  pairs : List (String × String)
  rawLinks : List (String × String)
deriving Repr, DecidableEq

/-- seen-set deduplication of links by URL, first occurrence wins
(lines 80-87). -/
def dedupFst : List (String × String) → List String → List (String × String)
  | [], _ => []
  | l :: rest, seen =>
    if seen.contains l.1 then dedupFst rest seen
    else l :: dedupFst rest (l.1 :: seen)

/-- Embedding of _extract_links_with_text over the raw anchors of a page:
normalize each href, keep it when valid, internal and unvisited, lowercase
the anchor text, then deduplicate by URL. -/
def extractLinksWithText (base domain : String) (visited : List String)
    (raw : List (String × String)) : List (String × String) :=
  let links := raw.filterMap fun a =>
    let full := normalizeUrl base a.1
    if isValidInternalUrl domain full && !(visited.contains full) then
      some (full, lowerStr a.2)
    else none
  dedupFst links []

/-- self.base_url = website_url.rstrip("/"). -/
def scrapeBase (website : String) : String := pyRstripP (· = '/') website

/-- self.domain = urlparse(self.base_url).netloc. -/
def scrapeDomain (website : String) : String :=
  (urlparseModel (scrapeBase website) "").netloc

/-- The state at scraper construction plus the initial
visited_urls.add(base_url) of scrape_sync. -/
def initialState (base : String) : ScrapeState := ⟨[base], [], [], false⟩

/-- The homepage links all_links_with_text (lines 468-473): empty when the
homepage fetch fails. -/
def homepageLinks (website : String) (fetch : String → Option FetchResult) :
    List (String × String) :=
  match fetch (scrapeBase website) with
  | none => []
  | some fr =>
    extractLinksWithText (scrapeBase website) (scrapeDomain website)
      [scrapeBase website] fr.rawLinks

/-- The state after the homepage fetch and its FAQ extraction
(lines 464-476). -/
def afterHomepage (website : String) (fetch : String → Option FetchResult) :
    ScrapeState :=
  match fetch (scrapeBase website) with
  | none => initialState (scrapeBase website)
  | some fr =>
    extractPairs (initialState (scrapeBase website)) fr.pairs (scrapeBase website)

/-- faq_links: the homepage links classified FAQ by URL or text (line 479). -/
def homepageFaqLinks (website : String) (fetch : String → Option FetchResult) :
    List (String × String) :=
  (homepageLinks website fetch).filter (fun l => isFaqLink l.1 l.2)

/-- One iteration of the FAQ-focused loop (lines 485-494). -/
def faqStep (fetch : String → Option FetchResult) (st : ScrapeState)
    (link : String × String) : ScrapeState :=
  if st.visitedUrls.contains link.1 then st
  else
    let stv := { st with visitedUrls := st.visitedUrls ++ [link.1] }
    match fetch link.1 with
    | none => stv
    | some fr => { extractPairs stv fr.pairs link.1 with faqPageFound := true }

/-- The whole FAQ-focused loop. -/
def faqPhase (fetch : String → Option FetchResult)
    (links : List (String × String)) (st : ScrapeState) : ScrapeState :=
  links.foldl (faqStep fetch) st

/-- The state after the FAQ-focused branch (a no-op when faq_links is
empty, exactly as the guarded loop). -/
def afterFaqPhase (website : String)
    (fetch : String → Option FetchResult) : ScrapeState :=
  faqPhase fetch (homepageFaqLinks website fetch) (afterHomepage website fetch)

/-- Pop the frontier until the first unvisited entry (the pop-and-continue
steps of the while loop; skipping re-checks no state, matching the loop
since skips leave the guard unchanged). -/
def popNext (visited : List String) :
    List (String × String) → Option ((String × String) × List (String × String))
  | [] => none
  | l :: rest => if visited.contains l.1 then popNext visited rest else some (l, rest)

/-- The full-crawl BFS while-loop (lines 505-520) with explicit fuel.  Each
step visits exactly one URL (growing visited_urls by one); the loop guard
stops at maxPages visited, so fuel = maxPages is sufficient: when the fuel
runs out after maxPages visits the guard would stop the source loop too. -/
def crawlGo (base domain : String) (maxPages : Nat)
    (fetch : String → Option FetchResult) :
    Nat → List (String × String) → ScrapeState → ScrapeState
  | 0, _, s => s
  | fuel + 1, toCrawl, s =>
    if maxPages ≤ s.visitedUrls.length then s
    else
      match popNext s.visitedUrls toCrawl with
      | none => s
      | some (l, rest) =>
        let s1 := { s with visitedUrls := s.visitedUrls ++ [l.1] }
        match fetch l.1 with
        | none => crawlGo base domain maxPages fetch fuel rest s1
        | some fr =>
          let links := extractLinksWithText base domain s1.visitedUrls fr.rawLinks
          let s2 := extractPairs s1 fr.pairs l.1
          let newLinks := links.filter (fun x => !(s2.visitedUrls.contains x.1))
          crawlGo base domain maxPages fetch fuel (rest ++ newLinks) s2

/-- The final crawl-session state of scrape_sync: FAQ-focused branch, then
the full crawl only when all_faqs is still empty (line 501). -/
def scrapeState (website : String) (maxPages : Nat)
    (fetch : String → Option FetchResult) : ScrapeState :=
  let s2 := afterFaqPhase website fetch
  if s2.allFaqs = [] then
    let toCrawl := (homepageLinks website fetch).filter
      (fun l => !(s2.visitedUrls.contains l.1))
    crawlGo (scrapeBase website) (scrapeDomain website) maxPages fetch
      maxPages toCrawl s2
  else s2

/-- The returned CrawlResult (lines 522-531), minus the wall-clock
extractedAt timestamp (I/O). -/
structure CrawlOutput where
  website : String
  faqs : List Faq
  pagesProcessed : Nat
  totalFaqsFound : Nat
  faqPageFound : Bool
deriving Repr, DecidableEq

/-- Embedding of FAQScraper.scrape_sync. -/
def scrapeSync (website : String) (maxPages : Nat)
    (fetch : String → Option FetchResult) : CrawlOutput :=
  let s := scrapeState website maxPages fetch
  ⟨scrapeBase website, s.allFaqs, s.visitedUrls.length, s.allFaqs.length,
   s.faqPageFound⟩

/-! ## Auxiliary definitions used by the verification -/

/-- Remove one leading single or double quote, if present. -/
def dropLeadQuote (l : List Char) : List Char :=
  match l with
  | d :: rest => if d = '"' ∨ d = '\'' then rest else d :: rest
  | [] => []

/-- The question with its first character removed, along with an
immediately following quote character if present. -/
def restAfterLeadB (q : String) : String := ⟨dropLeadQuote (q.data.drop 1)⟩

/-- The dedup invariant of a crawl session: the seen-questions set is
exactly the list of stored record keys, without duplicates. -/
def stateInv (s : ScrapeState) : Prop :=
  s.seenQuestions = s.allFaqs.map recKey ∧ s.seenQuestions.Nodup

/-- The state-independent part of the _add_faq acceptance test: when it
holds, the pair produces a record unless its key is already taken (in which
case a record with that key already exists). -/
def acceptablePair (q a : String) : Bool :=
  isEnglish q && isEnglish a
  && !(skipQuestionPatterns.any (fun p => strContains (pyStrip (lowerStr (cleanQuestion q))) p))
  && !(pyStrip (lowerStr (cleanQuestion q)) == "")
  && decide (5 < (cleanQuestion q).length)

/-- Every stored record's question is longer than 5 characters. -/
def questionLenInv (s : ScrapeState) : Prop :=
  ∀ r ∈ s.allFaqs, 5 < r.question.length

/-- A crawl-session state with nothing yet seen or stored. -/
def freshSession : ScrapeState := ⟨[], [], [], false⟩

/-- A question/answer pair that _add_faq accepts from a fresh session. -/
def goodPair : String × String :=
  ("What is the return policy?", "You may return items within 30 days of purchase.")

/-- A site whose homepage links one FAQ-classified page (fetch of that page
fails): used against claims about pagesProcessed and faqPageFound. -/
def c1Fetch : String → Option FetchResult := fun u =>
  if u = "https://ex.com" then some ⟨[], [("/faq", "FAQ")]⟩ else none

/-- A site whose homepage links two FAQ-classified pages, the first with
anchor text exactly "FAQ" and yielding one record. -/
def c4Fetch : String → Option FetchResult := fun u =>
  if u = "https://ex.com" then some ⟨[], [("/faq", "FAQ"), ("/questions", "More")]⟩
  else if u = "https://ex.com/faq" then some ⟨[goodPair], []⟩
  else if u = "https://ex.com/questions" then some ⟨[], []⟩
  else none

/-- A site whose homepage yields one record directly and has one non-FAQ
link. -/
def c10Fetch : String → Option FetchResult := fun u =>
  if u = "https://ex.com" then some ⟨[goodPair], [("/about", "About")]⟩ else none

/-- A details/summary accordion whose answer text is short (16 characters
after cleaning). -/
def accordionCexRoot : Node :=
  .elem "div" []
    [.elem "details" []
      [.elem "summary" [] [.textNode "Can I return my item later?"],
       .elem "p" [] [.textNode "Yes, within 30d."]]]

/-- A session state holding one record, for exercising the duplicate
branch of _add_faq. -/
def dupState : ScrapeState :=
  addFaq freshSession "What is X here?" "First answer that is long enough." "u"

/-- A paragraph list for the paragraph-pair strategy. -/
def goodParas : List String :=
  ["What is your return policy?",
   "You may return items within 30 days of purchase for a full refund."]
/-- Claim C6 (amended): the English heuristic classifies a string as
non-English exactly when it is empty, or when the fraction
non-ASCII / (ASCII-letters + non-ASCII) is at least 0.30 over a positive
denominator; in particular every non-empty entirely non-ASCII string is
classified non-English.  (The original claim's statement that the empty
string passes is refuted by the counterexample.) -/
theorem isEnglish_characterization :
    (∀ s : String, isEnglish s = false ↔
      (s = "" ∨ (0 < asciiLetterCount s + nonAsciiCount s ∧
        3 * (asciiLetterCount s + nonAsciiCount s) ≤ 10 * nonAsciiCount s)))
    ∧ (∀ s : String, s ≠ "" → (∀ c ∈ s.data, 128 ≤ c.toNat) → isEnglish s = false) := by
  have key : ∀ s : String, isEnglish s = false ↔
      (s = "" ∨ (0 < asciiLetterCount s + nonAsciiCount s ∧
        3 * (asciiLetterCount s + nonAsciiCount s) ≤ 10 * nonAsciiCount s)) := by
    intro s
    by_cases h1 : s = ""
    · simp [isEnglish, h1]
    · by_cases h2 : asciiLetterCount s + nonAsciiCount s = 0
      · simp [isEnglish, h1, h2]
      · simp only [isEnglish, h1, h2, if_false, if_neg]
        simp [h1, h2, decide_eq_false_iff_not]
        omega
  refine ⟨key, ?_⟩
  intro s hne hchars
  rw [key]
  right
  have hA : asciiLetterCount s = 0 := by
    unfold asciiLetterCount countChars
    have h : s.data.filter isAsciiAlpha = [] := by
      rw [List.filter_eq_nil_iff]
      intro c hc
      have := hchars c hc
      unfold isAsciiAlpha
      simp
      omega
    rw [h]
    rfl
  have hN : nonAsciiCount s = s.data.length := by
    unfold nonAsciiCount countChars
    have h : s.data.filter (fun c => !(c.toNat < 128)) = s.data := by
      rw [List.filter_eq_self]
      intro c hc
      have := hchars c hc
      simp
      omega
    rw [h]
  have hlen : 0 < s.data.length := by
    rcases s with ⟨d⟩
    cases d with
    | nil => simp at hne
    | cons a as => simp
  omega

/-- Claim C8: for every domain, the internal-URL validator rejects any URL
whose parsed path has more than one non-empty segment; a single-segment
path such as /support is not rejected by this rule. -/
theorem validInternalUrlDepthBound :
    (∀ domain url : String,
      2 ≤ ((splitOnChar '/' (pyStripP (· = '/') (urlparseModel url "").path).data).filter
            (· ≠ [])).length →
      isValidInternalUrl domain url = false)
    ∧ isValidInternalUrl "example.com" "https://example.com/support" = true := by
  constructor
  · intro domain url h
    simp only [isValidInternalUrl]
    split_ifs with h1 h2 h3 h4 h5
    any_goals rfl
    exfalso
    push_neg at h5
    by_cases hp : pyStripP (fun x => decide (x = '/')) (urlparseModel url).path = ""
    · rw [hp] at h
      exact absurd h (by decide)
    · have h6 := h5 hp
      have hle := List.length_filter_le (fun x => decide (x ≠ []))
        (splitOnChar '/' (pyStripP (fun x => decide (x = '/')) (urlparseModel url).path).data)
      omega
  · decide

theorem stripStringPreChars_of_leadB (c : Char) (cs : List Char)
    (hc : c = 'b' ∨ c = 'B') :
    stripStringPreChars (c :: cs) = dropLeadQuote cs := by
  rcases cs with _ | ⟨d, ds⟩ <;> simp [stripStringPreChars, dropLeadQuote, hc]

theorem cleanQuestion_of_leadB (q : String)
    (h : q.data.head? = some 'b' ∨ q.data.head? = some 'B') :
    cleanQuestion q = pyStrip (stripLeadingNum (pyStrip (restAfterLeadB q))) := by
  rcases hq : q.data with _ | ⟨c, cs⟩
  · rcases h with h | h <;> simp [hq] at h
  · have hc : c = 'b' ∨ c = 'B' := by
      rcases h with h | h <;> rw [hq] at h <;> simp at h <;> simp [h]
    unfold cleanQuestion restAfterLeadB
    rw [hq]
    rw [stripStringPreChars_of_leadB c cs hc]
    simp

/-- Claim C9: when _add_faq is called with a question whose first character
is 'b' or 'B', whatever record (and seen-questions key) it may store is
derived from the question with that first character removed, together with
an immediately following quote character if present. -/
theorem addFaq_strips_leadB (s : ScrapeState) (q a u : String)
    (h : q.data.head? = some 'b' ∨ q.data.head? = some 'B') :
    addFaq s q a u = s ∨
    addFaq s q a u = { s with
      seenQuestions := s.seenQuestions ++
        [pyStrip (lowerStr (pyStrip (stripLeadingNum (pyStrip (restAfterLeadB q)))))],
      allFaqs := s.allFaqs ++
        [⟨pyStrip (stripLeadingNum (pyStrip (restAfterLeadB q))), a, u⟩] } := by
  have hcl := cleanQuestion_of_leadB q h
  simp only [addFaq, hcl]
  split_ifs with h1 h2 h3
  · left; rfl
  · left; rfl
  · right; rfl
  · left; rfl

theorem extractPairs_nil (s : ScrapeState) (u : String) : extractPairs s [] u = s := rfl

theorem extractPairs_cons (s : ScrapeState) (p : String × String)
    (ps : List (String × String)) (u : String) :
    extractPairs s (p :: ps) u = extractPairs (addFaq s p.1 p.2 u) ps u := rfl

theorem addFaq_visited (s : ScrapeState) (q a u : String) :
    (addFaq s q a u).visitedUrls = s.visitedUrls := by
  simp only [addFaq]; split_ifs <;> rfl

theorem addFaq_found (s : ScrapeState) (q a u : String) :
    (addFaq s q a u).faqPageFound = s.faqPageFound := by
  simp only [addFaq]; split_ifs <;> rfl

theorem addFaq_faqs_ne_nil (s : ScrapeState) (q a u : String)
    (h : s.allFaqs ≠ []) : (addFaq s q a u).allFaqs ≠ [] := by
  simp only [addFaq]; split_ifs <;> simp [h]

theorem extractPairs_visited (s : ScrapeState) (ps : List (String × String)) (u : String) :
    (extractPairs s ps u).visitedUrls = s.visitedUrls := by
  induction ps generalizing s with
  | nil => rfl
  | cons p ps ih => rw [extractPairs_cons, ih, addFaq_visited]

theorem extractPairs_found (s : ScrapeState) (ps : List (String × String)) (u : String) :
    (extractPairs s ps u).faqPageFound = s.faqPageFound := by
  induction ps generalizing s with
  | nil => rfl
  | cons p ps ih => rw [extractPairs_cons, ih, addFaq_found]

theorem extractPairs_faqs_ne_nil (s : ScrapeState) (ps : List (String × String)) (u : String)
    (h : s.allFaqs ≠ []) : (extractPairs s ps u).allFaqs ≠ [] := by
  induction ps generalizing s with
  | nil => exact h
  | cons p ps ih => rw [extractPairs_cons]; exact ih _ (addFaq_faqs_ne_nil _ _ _ _ h)

theorem stateInv_initial (b : String) : stateInv (initialState b) := ⟨rfl, List.nodup_nil⟩

theorem addFaq_stateInv (s : ScrapeState) (q a u : String)
    (h : stateInv s) : stateInv (addFaq s q a u) := by
  obtain ⟨h1, h2⟩ := h
  simp only [addFaq]
  split_ifs with g1 g2 g3
  · exact ⟨h1, h2⟩
  · exact ⟨h1, h2⟩
  · simp only [Bool.and_eq_true, ne_eq, Bool.not_eq_true', decide_eq_true_eq] at g3
    refine ⟨?_, ?_⟩
    · simp [h1, recKey]
    · have hnm : pyStrip (lowerStr (cleanQuestion q)) ∉ s.seenQuestions := by
        have := g3.1.2
        simp only [List.contains, List.elem_eq_mem, decide_eq_false_iff_not] at this
        exact this
      simp [List.nodup_append, h2, hnm]
  · exact ⟨h1, h2⟩

theorem extractPairs_stateInv (s : ScrapeState) (ps : List (String × String)) (u : String)
    (h : stateInv s) : stateInv (extractPairs s ps u) := by
  induction ps generalizing s with
  | nil => exact h
  | cons p ps ih => rw [extractPairs_cons]; exact ih _ (addFaq_stateInv _ _ _ _ h)

theorem faqPhase_nil (f : String → Option FetchResult) (st : ScrapeState) :
    faqPhase f [] st = st := rfl

theorem faqPhase_cons (f : String → Option FetchResult) (l : String × String)
    (ls : List (String × String)) (st : ScrapeState) :
    faqPhase f (l :: ls) st = faqPhase f ls (faqStep f st l) := rfl

theorem faqStep_stateInv (f : String → Option FetchResult) (st : ScrapeState)
    (l : String × String) (h : stateInv st) : stateInv (faqStep f st l) := by
  unfold faqStep
  obtain ⟨h1, h2⟩ := h
  split_ifs with g1
  · exact ⟨h1, h2⟩
  · cases hf : f l.1 with
    | none => exact ⟨h1, h2⟩
    | some fr =>
      simp only []
      have := extractPairs_stateInv
        { st with visitedUrls := st.visitedUrls ++ [l.1] } fr.pairs l.1 ⟨h1, h2⟩
      obtain ⟨k1, k2⟩ := this
      exact ⟨k1, k2⟩

theorem faqStep_faqs_ne_nil (f : String → Option FetchResult) (st : ScrapeState)
    (l : String × String) (h : st.allFaqs ≠ []) : (faqStep f st l).allFaqs ≠ [] := by
  unfold faqStep
  split_ifs with g1
  · exact h
  · cases hf : f l.1 with
    | none => exact h
    | some fr =>
      simp only []
      exact extractPairs_faqs_ne_nil _ _ _ h

theorem faqPhase_stateInv (f : String → Option FetchResult)
    (ls : List (String × String)) (st : ScrapeState)
    (h : stateInv st) : stateInv (faqPhase f ls st) := by
  induction ls generalizing st with
  | nil => exact h
  | cons l ls ih => rw [faqPhase_cons]; exact ih _ (faqStep_stateInv _ _ _ h)

theorem faqPhase_faqs_ne_nil (f : String → Option FetchResult)
    (ls : List (String × String)) (st : ScrapeState)
    (h : st.allFaqs ≠ []) : (faqPhase f ls st).allFaqs ≠ [] := by
  induction ls generalizing st with
  | nil => exact h
  | cons l ls ih => rw [faqPhase_cons]; exact ih _ (faqStep_faqs_ne_nil _ _ _ h)

/-- The FAQ-focused loop under the conditions that actually hold when it
runs (pairwise-distinct link URLs, none yet visited): it visits exactly the
link URLs in order, and sets faq_page_found exactly when some fetch
succeeds. -/
theorem faqPhase_characterization (f : String → Option FetchResult)
    (ls : List (String × String)) (st : ScrapeState)
    (hnd : (ls.map Prod.fst).Nodup)
    (hnv : ∀ l ∈ ls, l.1 ∉ st.visitedUrls) :
    (faqPhase f ls st).visitedUrls = st.visitedUrls ++ ls.map Prod.fst ∧
    (faqPhase f ls st).faqPageFound
      = (st.faqPageFound || ls.any (fun l => (f l.1).isSome)) := by
  induction ls generalizing st with
  | nil => simp [faqPhase_nil]
  | cons l ls ih =>
    rw [faqPhase_cons]
    have hl1 : l.1 ∉ st.visitedUrls := hnv l (List.mem_cons_self _ _)
    have hstep : (faqStep f st l).visitedUrls = st.visitedUrls ++ [l.1] ∧
        (faqStep f st l).faqPageFound = (st.faqPageFound || (f l.1).isSome) := by
      unfold faqStep
      rw [if_neg (by simpa [List.contains, List.elem_eq_mem] using hl1)]
      cases hf : f l.1 with
      | none => simp
      | some fr =>
        constructor
        · simp [extractPairs_visited]
        · simp
    have hnd' : (ls.map Prod.fst).Nodup := by
      simp only [List.map_cons, List.nodup_cons] at hnd
      exact hnd.2
    have hmem : l.1 ∉ ls.map Prod.fst := by
      simp only [List.map_cons, List.nodup_cons] at hnd
      exact hnd.1
    have hnv' : ∀ x ∈ ls, x.1 ∉ (faqStep f st l).visitedUrls := by
      intro x hx
      rw [hstep.1]
      simp only [List.mem_append, List.mem_singleton]
      rintro (hv | hv)
      · exact hnv x (List.mem_cons_of_mem _ hx) hv
      · exact hmem (hv ▸ List.mem_map_of_mem Prod.fst hx)
    obtain ⟨v1, v2⟩ := ih (faqStep f st l) hnd' hnv'
    refine ⟨?_, ?_⟩
    · rw [v1, hstep.1]
      simp
    · rw [v2, hstep.2]
      simp [Bool.or_assoc]

theorem crawlGo_found (base domain : String) (maxPages : Nat)
    (f : String → Option FetchResult) (fuel : Nat)
    (toCrawl : List (String × String)) (s : ScrapeState) :
    (crawlGo base domain maxPages f fuel toCrawl s).faqPageFound = s.faqPageFound := by
  induction fuel generalizing toCrawl s with
  | zero => rfl
  | succ fuel ih =>
    unfold crawlGo
    split_ifs with g1
    · rfl
    · cases hp : popNext s.visitedUrls toCrawl with
      | none => rfl
      | some x =>
        obtain ⟨l, rest⟩ := x
        simp only []
        cases hf : f l.1 with
        | none => rw [ih]
        | some fr => rw [ih, extractPairs_found]

theorem crawlGo_stateInv (base domain : String) (maxPages : Nat)
    (f : String → Option FetchResult) (fuel : Nat)
    (toCrawl : List (String × String)) (s : ScrapeState)
    (h : stateInv s) : stateInv (crawlGo base domain maxPages f fuel toCrawl s) := by
  induction fuel generalizing toCrawl s with
  | zero => exact h
  | succ fuel ih =>
    unfold crawlGo
    split_ifs with g1
    · exact h
    · cases hp : popNext s.visitedUrls toCrawl with
      | none => exact h
      | some x =>
        obtain ⟨l, rest⟩ := x
        simp only []
        cases hf : f l.1 with
        | none => exact ih _ _ ⟨h.1, h.2⟩
        | some fr =>
          exact ih _ _ (extractPairs_stateInv _ _ _ ⟨h.1, h.2⟩)

theorem crawlGo_visited_bound (base domain : String) (maxPages : Nat)
    (f : String → Option FetchResult) (fuel : Nat)
    (toCrawl : List (String × String)) (s : ScrapeState) :
    (crawlGo base domain maxPages f fuel toCrawl s).visitedUrls.length
      ≤ max maxPages s.visitedUrls.length := by
  induction fuel generalizing toCrawl s with
  | zero => exact Nat.le_max_right _ _
  | succ fuel ih =>
    unfold crawlGo
    split_ifs with g1
    · exact Nat.le_max_right _ _
    · cases hp : popNext s.visitedUrls toCrawl with
      | none => exact Nat.le_max_right _ _
      | some x =>
        obtain ⟨l, rest⟩ := x
        simp only []
        push_neg at g1
        have hle : s.visitedUrls.length + 1 ≤ maxPages := g1
        cases hf : f l.1 with
        | none =>
          simp only []
          refine le_trans (ih _ _) ?_
          simp only [List.length_append, List.length_singleton]
          rw [Nat.max_eq_left hle]
          exact Nat.le_max_left _ _
        | some fr =>
          simp only []
          refine le_trans (ih _ _) ?_
          rw [extractPairs_visited]
          simp only [List.length_append, List.length_singleton]
          rw [Nat.max_eq_left hle]
          exact Nat.le_max_left _ _

theorem dedupFst_props (ls : List (String × String)) :
    ∀ seen : List String,
      ((dedupFst ls seen).map Prod.fst).Nodup ∧
      (∀ x ∈ dedupFst ls seen, x ∈ ls ∧ x.1 ∉ seen) := by
  induction ls with
  | nil => intro seen; exact ⟨List.nodup_nil, by simp [dedupFst]⟩
  | cons l ls ih =>
    intro seen
    unfold dedupFst
    split_ifs with g1
    · obtain ⟨n1, n2⟩ := ih seen
      exact ⟨n1, fun x hx => ⟨List.mem_cons_of_mem _ (n2 x hx).1, (n2 x hx).2⟩⟩
    · obtain ⟨n1, n2⟩ := ih (l.1 :: seen)
      refine ⟨?_, ?_⟩
      · simp only [List.map_cons, List.nodup_cons]
        refine ⟨?_, n1⟩
        intro hmem
        obtain ⟨x, hx, hx1⟩ := List.mem_map.mp hmem
        have := (n2 x hx).2
        simp [hx1] at this
      · intro x hx
        rcases List.mem_cons.mp hx with h | h
        · subst h
          refine ⟨List.mem_cons_self _ _, ?_⟩
          intro hm
          exact absurd (by simpa [List.contains, List.elem_eq_mem] using hm) (by simpa using g1)
        · have := n2 x h
          exact ⟨List.mem_cons_of_mem _ this.1, fun hm => this.2 (List.mem_cons_of_mem _ hm)⟩

theorem extractLinksWithText_nodup (base domain : String) (visited : List String)
    (raw : List (String × String)) :
    ((extractLinksWithText base domain visited raw).map Prod.fst).Nodup :=
  (dedupFst_props _ []).1

theorem extractLinksWithText_not_visited (base domain : String) (visited : List String)
    (raw : List (String × String)) :
    ∀ x ∈ extractLinksWithText base domain visited raw, x.1 ∉ visited := by
  intro x hx
  unfold extractLinksWithText at hx
  have hmem := ((dedupFst_props _ []).2 x hx).1
  obtain ⟨a, _ha, hfa⟩ := List.mem_filterMap.mp hmem
  simp only [] at hfa
  by_cases hc : (isValidInternalUrl domain (normalizeUrl base a.1)
      && !visited.contains (normalizeUrl base a.1)) = true
  · rw [if_pos hc] at hfa
    rw [Bool.and_eq_true] at hc
    obtain ⟨hval, hnv⟩ := hc
    obtain rfl := Option.some.injEq _ _ ▸ hfa
    intro hv
    have hcv : visited.contains (normalizeUrl base a.1) = true := by
      simpa [List.contains, List.elem_eq_mem] using hv
    rw [hcv] at hnv
    simp at hnv
  · rw [if_neg hc] at hfa
    exact absurd hfa (by simp)

theorem afterHomepage_visited (w : String) (f : String → Option FetchResult) :
    (afterHomepage w f).visitedUrls = [scrapeBase w] := by
  unfold afterHomepage
  cases f (scrapeBase w) with
  | none => rfl
  | some fr => rw [extractPairs_visited]; rfl

theorem afterHomepage_found (w : String) (f : String → Option FetchResult) :
    (afterHomepage w f).faqPageFound = false := by
  unfold afterHomepage
  cases f (scrapeBase w) with
  | none => rfl
  | some fr => rw [extractPairs_found]; rfl

theorem afterHomepage_stateInv (w : String) (f : String → Option FetchResult) :
    stateInv (afterHomepage w f) := by
  unfold afterHomepage
  cases f (scrapeBase w) with
  | none => exact stateInv_initial _
  | some fr => exact extractPairs_stateInv _ _ _ (stateInv_initial _)

theorem homepageLinks_nodup (w : String) (f : String → Option FetchResult) :
    ((homepageLinks w f).map Prod.fst).Nodup := by
  unfold homepageLinks
  cases f (scrapeBase w) with
  | none => exact List.nodup_nil
  | some fr => exact extractLinksWithText_nodup _ _ _ _

theorem homepageLinks_not_base (w : String) (f : String → Option FetchResult) :
    ∀ x ∈ homepageLinks w f, x.1 ≠ scrapeBase w := by
  unfold homepageLinks
  cases f (scrapeBase w) with
  | none => simp
  | some fr =>
    intro x hx heq
    have := extractLinksWithText_not_visited _ _ _ _ x hx
    simp [heq] at this

theorem homepageFaqLinks_nodup (w : String) (f : String → Option FetchResult) :
    ((homepageFaqLinks w f).map Prod.fst).Nodup := by
  have hs : List.Sublist ((homepageFaqLinks w f).map Prod.fst)
      ((homepageLinks w f).map Prod.fst) :=
    List.Sublist.map Prod.fst (List.filter_sublist _)
  exact (homepageLinks_nodup w f).sublist hs

theorem homepageFaqLinks_not_visited (w : String) (f : String → Option FetchResult) :
    ∀ x ∈ homepageFaqLinks w f, x.1 ∉ (afterHomepage w f).visitedUrls := by
  intro x hx
  rw [afterHomepage_visited]
  have hmem : x ∈ homepageLinks w f := List.mem_of_mem_filter hx
  have := homepageLinks_not_base w f x hmem
  simp [this]

theorem addFaq_ne_nil_of_acceptable (s : ScrapeState) (q a u : String)
    (hinv : stateInv s) (hacc : acceptablePair q a = true) :
    (addFaq s q a u).allFaqs ≠ [] := by
  simp only [acceptablePair, Bool.and_eq_true, Bool.not_eq_true', beq_eq_false_iff_ne,
    decide_eq_true_eq] at hacc
  obtain ⟨⟨⟨⟨heq, hea⟩, hskip⟩, hne⟩, hlen⟩ := hacc
  simp only [addFaq]
  split_ifs with g1 g2 g3
  · rw [heq, hea] at g1
    simp at g1
  · rw [hskip] at g2
    simp at g2
  · simp
  · by_cases hc : s.seenQuestions.contains (pyStrip (lowerStr (cleanQuestion q))) = true
    · have hmem : pyStrip (lowerStr (cleanQuestion q)) ∈ s.seenQuestions := by
        simpa [List.contains, List.elem_eq_mem] using hc
      rw [hinv.1] at hmem
      intro hnil
      rw [hnil] at hmem
      simp at hmem
    · exfalso
      apply g3
      have hc' : s.seenQuestions.contains (pyStrip (lowerStr (cleanQuestion q))) = false :=
        Bool.eq_false_iff.mpr hc
      simp only [Bool.and_eq_true, decide_eq_true_eq]
      refine ⟨⟨hne, ?_⟩, by omega⟩
      simpa [List.contains, List.elem_eq_mem] using hc'

theorem extractPairs_ne_nil_of_acceptable (ps : List (String × String)) :
    ∀ (s : ScrapeState) (u : String), stateInv s →
      (∃ p ∈ ps, acceptablePair p.1 p.2 = true) →
      (extractPairs s ps u).allFaqs ≠ [] := by
  induction ps with
  | nil => intro s u _ h; simp at h
  | cons p ps ih =>
    intro s u hinv hex
    rw [extractPairs_cons]
    rcases hex with ⟨x, hx, hacc⟩
    rcases List.mem_cons.mp hx with h | h
    · subst h
      exact extractPairs_faqs_ne_nil _ _ _
        (addFaq_ne_nil_of_acceptable s x.1 x.2 u hinv hacc)
    · exact ih _ _ (addFaq_stateInv _ _ _ _ hinv) ⟨x, h, hacc⟩

theorem addFaq_acceptable_of_grew (s : ScrapeState) (q a u : String)
    (hnil : s.allFaqs = []) (hne : (addFaq s q a u).allFaqs ≠ []) :
    acceptablePair q a = true := by
  simp only [addFaq] at hne
  split_ifs at hne with g1 g2 g3
  · exact absurd hnil hne
  · exact absurd hnil hne
  · simp only [Bool.and_eq_true, decide_eq_true_eq] at g3
    have g1' : isEnglish q = true ∧ isEnglish a = true := by
      rcases Bool.eq_false_or_eq_true (isEnglish q) with h | h
      · rcases Bool.eq_false_or_eq_true (isEnglish a) with h2 | h2
        · exact ⟨h, h2⟩
        · exact absurd (by simp [h2]) g1
      · exact absurd (by simp [h]) g1
    simp only [acceptablePair, Bool.and_eq_true, Bool.not_eq_true', beq_eq_false_iff_ne,
      decide_eq_true_eq]
    refine ⟨⟨⟨⟨g1'.1, g1'.2⟩, ?_⟩, ?_⟩, by omega⟩
    · exact Bool.eq_false_iff.mpr g2
    · exact g3.1.1
  · exact absurd hnil hne

theorem extractPairs_acceptable_of_grew (ps : List (String × String)) :
    ∀ (s : ScrapeState) (u : String), s.allFaqs = [] →
      (extractPairs s ps u).allFaqs ≠ [] →
      ∃ p ∈ ps, acceptablePair p.1 p.2 = true := by
  induction ps with
  | nil => intro s u hnil hne; exact absurd hnil hne
  | cons p ps ih =>
    intro s u hnil hne
    rw [extractPairs_cons] at hne
    by_cases hs : (addFaq s p.1 p.2 u).allFaqs = []
    · obtain ⟨x, hx, hacc⟩ := ih _ _ hs hne
      exact ⟨x, List.mem_cons_of_mem _ hx, hacc⟩
    · exact ⟨p, List.mem_cons_self _ _, addFaq_acceptable_of_grew s p.1 p.2 u hnil hs⟩

theorem faqStep_visited_cases (f : String → Option FetchResult) (st : ScrapeState)
    (l : String × String) :
    (faqStep f st l).visitedUrls = st.visitedUrls ∨
    (faqStep f st l).visitedUrls = st.visitedUrls ++ [l.1] := by
  unfold faqStep
  split_ifs with g1
  · exact Or.inl rfl
  · cases hf : f l.1 with
    | none => exact Or.inr rfl
    | some fr =>
      right
      simp only []
      rw [extractPairs_visited]

theorem afterFaqPhase_char (w : String) (f : String → Option FetchResult) :
    (afterFaqPhase w f).visitedUrls
      = scrapeBase w :: (homepageFaqLinks w f).map Prod.fst ∧
    (afterFaqPhase w f).faqPageFound
      = (homepageFaqLinks w f).any (fun l => (f l.1).isSome) := by
  have h := faqPhase_characterization f (homepageFaqLinks w f) (afterHomepage w f)
    (homepageFaqLinks_nodup w f) (homepageFaqLinks_not_visited w f)
  rw [afterHomepage_visited, afterHomepage_found] at h
  unfold afterFaqPhase
  simpa using h

theorem afterFaqPhase_stateInv (w : String) (f : String → Option FetchResult) :
    stateInv (afterFaqPhase w f) :=
  faqPhase_stateInv _ _ _ (afterHomepage_stateInv w f)

theorem faqPhase_ne_nil_of_link (f : String → Option FetchResult)
    (ls : List (String × String)) :
    ∀ st : ScrapeState, stateInv st →
      (ls.map Prod.fst).Nodup →
      (∀ l ∈ ls, l.1 ∉ st.visitedUrls) →
      ∀ u fr, u ∈ ls.map Prod.fst → f u = some fr →
        (∃ p ∈ fr.pairs, acceptablePair p.1 p.2 = true) →
        (faqPhase f ls st).allFaqs ≠ [] := by
  induction ls with
  | nil => intro st _ _ _ u fr hu; simp at hu
  | cons l ls ih =>
    intro st hinv hnd hnv u fr hu hf hacc
    rw [faqPhase_cons]
    by_cases hul : l.1 = u
    · have hl1 : l.1 ∉ st.visitedUrls := hnv l (List.mem_cons_self _ _)
      have hstep : faqStep f st l =
          { extractPairs { st with visitedUrls := st.visitedUrls ++ [l.1] } fr.pairs l.1
            with faqPageFound := true } := by
        unfold faqStep
        rw [if_neg (by simpa [List.contains, List.elem_eq_mem] using hl1)]
        rw [hul, hf]
      rw [hstep]
      apply faqPhase_faqs_ne_nil
      have hne : (extractPairs { st with visitedUrls := st.visitedUrls ++ [l.1] }
          fr.pairs l.1).allFaqs ≠ [] :=
        extractPairs_ne_nil_of_acceptable fr.pairs _ l.1 ⟨hinv.1, hinv.2⟩ hacc
      exact hne
    · have hu' : u ∈ ls.map Prod.fst := by
        rcases List.mem_cons.mp hu with h | h
        · exact absurd h.symm hul
        · exact h
      have hnd' : (ls.map Prod.fst).Nodup := by
        simp only [List.map_cons, List.nodup_cons] at hnd
        exact hnd.2
      have hmem : l.1 ∉ ls.map Prod.fst := by
        simp only [List.map_cons, List.nodup_cons] at hnd
        exact hnd.1
      refine ih (faqStep f st l) (faqStep_stateInv _ _ _ hinv) hnd' ?_ u fr hu' hf hacc
      intro x hx
      rcases faqStep_visited_cases f st l with hv | hv <;> rw [hv]
      · exact hnv x (List.mem_cons_of_mem _ hx)
      · simp only [List.mem_append, List.mem_singleton]
        rintro (h | h)
        · exact hnv x (List.mem_cons_of_mem _ hx) h
        · exact hmem (h ▸ List.mem_map_of_mem Prod.fst hx)

theorem scrapeState_stateInv (w : String) (M : Nat) (f : String → Option FetchResult) :
    stateInv (scrapeState w M f) := by
  simp only [scrapeState]
  split_ifs with h
  · exact crawlGo_stateInv _ _ _ _ _ _ _ (afterFaqPhase_stateInv w f)
  · exact afterFaqPhase_stateInv w f

/-- Claim C2: in every crawl no two returned records share the same
case-folded trimmed question text, and _add_faq called with a question
whose cleaned key is already in the seen-questions set leaves the session
state unchanged (first writer wins; the later duplicate is silently
dropped even if its answer differs). -/
theorem faqDedupFirstWriterWins :
    (∀ (website : String) (maxPages : Nat) (fetch : String → Option FetchResult),
      List.Pairwise (fun r1 r2 => recKey r1 ≠ recKey r2)
        (scrapeSync website maxPages fetch).faqs)
    ∧ ∀ (s : ScrapeState) (q a u : String),
        pyStrip (lowerStr (cleanQuestion q)) ∈ s.seenQuestions → addFaq s q a u = s := by
  constructor
  · intro w M f
    have hinv := scrapeState_stateInv w M f
    have hnd : ((scrapeState w M f).allFaqs.map recKey).Nodup := hinv.1 ▸ hinv.2
    exact List.pairwise_map.mp hnd
  · intro s q a u hmem
    simp only [addFaq]
    split_ifs with g1 g2 g3
    · rfl
    · rfl
    · exfalso
      simp only [Bool.and_eq_true] at g3
      have : s.seenQuestions.contains (pyStrip (lowerStr (cleanQuestion q))) = false := by
        rcases Bool.eq_false_or_eq_true
            (s.seenQuestions.contains (pyStrip (lowerStr (cleanQuestion q)))) with h | h
        · rw [h] at g3
          simp at g3
        · exact h
      rw [List.contains, List.elem_eq_mem, decide_eq_false_iff_not] at this
      exact this hmem
    · rfl

/-- Claim C1 (amended): for every crawl, pagesProcessed is at most the
maximum of maxPages and 1 + the number of FAQ-classified homepage links:
the full-crawl loop respects the maxPages bound, but the FAQ-focused
branch visits every FAQ-classified homepage link without consulting it
(the original unconditional pagesProcessed ≤ maxPages is refuted by the
counterexample). -/
theorem scrapePagesBound (website : String) (maxPages : Nat)
    (fetch : String → Option FetchResult) :
    (scrapeSync website maxPages fetch).pagesProcessed
      ≤ max maxPages (1 + (homepageFaqLinks website fetch).length) := by
  show (scrapeState website maxPages fetch).visitedUrls.length ≤ _
  have hlen : (afterFaqPhase website fetch).visitedUrls.length
      = 1 + (homepageFaqLinks website fetch).length := by
    rw [(afterFaqPhase_char website fetch).1]
    simp [List.length_cons, List.length_map, Nat.add_comm]
  simp only [scrapeState]
  split_ifs with hempty
  · refine le_trans (crawlGo_visited_bound _ _ _ _ _ _ _) ?_
    rw [hlen]
  · rw [hlen]
    exact Nat.le_max_right _ _

/-- Claim C5 (amended): faqPageFound is true iff at least one
FAQ-classified homepage link's fetch succeeded, independently of whether
any record was produced.  (Merely taking the branch and visiting links is
not enough when every fetch fails, refuting the original claim.) -/
theorem faqPageFoundIffFetchSuccess (website : String) (maxPages : Nat)
    (fetch : String → Option FetchResult) :
    (scrapeSync website maxPages fetch).faqPageFound
      = (homepageFaqLinks website fetch).any (fun l => (fetch l.1).isSome) := by
  show (scrapeState website maxPages fetch).faqPageFound = _
  simp only [scrapeState]
  split_ifs with hempty
  · rw [crawlGo_found]
    exact (afterFaqPhase_char website fetch).2
  · exact (afterFaqPhase_char website fetch).2

/-- Claim C10: when the homepage itself yields at least one record and no
homepage link is FAQ-classified, the crawl fetches only the homepage:
pagesProcessed = 1 and faqPageFound = false. -/
theorem homepageOnlyCrawl (website : String) (maxPages : Nat)
    (fetch : String → Option FetchResult)
    (h2 : (afterHomepage website fetch).allFaqs ≠ [])
    (h3 : homepageFaqLinks website fetch = []) :
    (scrapeState website maxPages fetch).visitedUrls = [scrapeBase website] ∧
    (scrapeSync website maxPages fetch).pagesProcessed = 1 ∧
    (scrapeSync website maxPages fetch).faqPageFound = false := by
  have hphase : afterFaqPhase website fetch = afterHomepage website fetch := by
    unfold afterFaqPhase
    rw [h3, faqPhase_nil]
  have hfinal : scrapeState website maxPages fetch = afterHomepage website fetch := by
    simp only [scrapeState]
    rw [hphase, if_neg h2]
  refine ⟨?_, ?_, ?_⟩
  · rw [hfinal, afterHomepage_visited]
  · show (scrapeState website maxPages fetch).visitedUrls.length = 1
    rw [hfinal, afterHomepage_visited]
    rfl
  · show (scrapeState website maxPages fetch).faqPageFound = false
    rw [hfinal, afterHomepage_found]

/-- Claim C4 (amended): if some homepage link has anchor text "FAQ" (hence
is FAQ-classified) and fetching it yields at least one record from a fresh
session, then every fetched page is the homepage or an FAQ-classified
homepage link (the full-site BFS never runs) and faqPageFound is true.
(The original "no other homepage-linked page is fetched" is refuted: all
FAQ-classified links are fetched, not just that one.) -/
theorem faqShortCircuit (website : String) (maxPages : Nat)
    (fetch : String → Option FetchResult) (u : String) (fr : FetchResult)
    (h1 : (u, "faq") ∈ homepageLinks website fetch)
    (h2 : fetch u = some fr)
    (h3 : (extractPairs freshSession fr.pairs u).allFaqs ≠ []) :
    (scrapeSync website maxPages fetch).faqPageFound = true ∧
    ∀ v ∈ (scrapeState website maxPages fetch).visitedUrls,
      v = scrapeBase website ∨ v ∈ (homepageFaqLinks website fetch).map Prod.fst := by
  have hfaqlink : isFaqLink u "faq" = true := by
    have hB : (faqTextPatterns.any fun p => strContains (lowerStr "faq") p) = true := by decide
    unfold isFaqLink
    rw [hB, Bool.or_true]
  have hfaq : (u, "faq") ∈ homepageFaqLinks website fetch := by
    apply List.mem_filter.mpr
    exact ⟨h1, hfaqlink⟩
  have humem : u ∈ (homepageFaqLinks website fetch).map Prod.fst :=
    List.mem_map_of_mem Prod.fst hfaq
  have hacc : ∃ p ∈ fr.pairs, acceptablePair p.1 p.2 = true :=
    extractPairs_acceptable_of_grew fr.pairs freshSession u rfl h3
  have hs2ne : (afterFaqPhase website fetch).allFaqs ≠ [] := by
    unfold afterFaqPhase
    exact faqPhase_ne_nil_of_link fetch _ _ (afterHomepage_stateInv _ _)
      (homepageFaqLinks_nodup _ _) (homepageFaqLinks_not_visited _ _) u fr humem h2 hacc
  have hfinal : scrapeState website maxPages fetch = afterFaqPhase website fetch := by
    simp only [scrapeState]
    rw [if_neg hs2ne]
  constructor
  · show (scrapeState website maxPages fetch).faqPageFound = true
    rw [hfinal, (afterFaqPhase_char website fetch).2]
    apply List.any_eq_true.mpr
    exact ⟨(u, "faq"), hfaq, by simp [h2]⟩
  · intro v hv
    rw [hfinal, (afterFaqPhase_char website fetch).1] at hv
    exact List.mem_cons.mp hv

theorem addFaq_questionLenInv (s : ScrapeState) (q a u : String)
    (h : questionLenInv s) : questionLenInv (addFaq s q a u) := by
  simp only [addFaq]
  split_ifs with g1 g2 g3
  · exact h
  · exact h
  · intro r hr
    rcases List.mem_append.mp hr with hm | hm
    · exact h r hm
    · simp only [List.mem_singleton] at hm
      subst hm
      simp only [Bool.and_eq_true, decide_eq_true_eq] at g3
      exact g3.2
  · exact h

theorem extractPairs_questionLenInv (ps : List (String × String)) :
    ∀ (s : ScrapeState) (u : String), questionLenInv s →
      questionLenInv (extractPairs s ps u) := by
  induction ps with
  | nil => intro s u h; exact h
  | cons p ps ih =>
    intro s u h
    rw [extractPairs_cons]
    exact ih _ _ (addFaq_questionLenInv _ _ _ _ h)

theorem faqStep_questionLenInv (f : String → Option FetchResult) (st : ScrapeState)
    (l : String × String) (h : questionLenInv st) : questionLenInv (faqStep f st l) := by
  unfold faqStep
  split_ifs with g1
  · exact h
  · cases hf : f l.1 with
    | none => exact h
    | some fr =>
      simp only []
      intro r hr
      exact extractPairs_questionLenInv fr.pairs
        { st with visitedUrls := st.visitedUrls ++ [l.1] } l.1 h r hr

theorem faqPhase_questionLenInv (f : String → Option FetchResult)
    (ls : List (String × String)) :
    ∀ st : ScrapeState, questionLenInv st → questionLenInv (faqPhase f ls st) := by
  induction ls with
  | nil => intro st h; exact h
  | cons l ls ih =>
    intro st h
    rw [faqPhase_cons]
    exact ih _ (faqStep_questionLenInv _ _ _ h)

theorem crawlGo_questionLenInv (base domain : String) (maxPages : Nat)
    (f : String → Option FetchResult) (fuel : Nat) :
    ∀ (toCrawl : List (String × String)) (s : ScrapeState),
      questionLenInv s → questionLenInv (crawlGo base domain maxPages f fuel toCrawl s) := by
  induction fuel with
  | zero => intro toCrawl s h; exact h
  | succ fuel ih =>
    intro toCrawl s h
    unfold crawlGo
    split_ifs with g1
    · exact h
    · cases hp : popNext s.visitedUrls toCrawl with
      | none => exact h
      | some x =>
        obtain ⟨l, rest⟩ := x
        simp only []
        cases hf : f l.1 with
        | none => exact ih _ _ h
        | some fr => exact ih _ _ (extractPairs_questionLenInv _ _ _ h)

theorem paragraphPairsGo_answer_len (fuel : Nat) :
    ∀ (ps : List String) (p : String × String),
      p ∈ paragraphPairsGo fuel ps → 20 < p.2.length := by
  induction fuel with
  | zero => intro ps p hp; simp [paragraphPairsGo] at hp
  | succ fuel ih =>
    intro ps p hp
    cases ps with
    | nil => simp [paragraphPairsGo] at hp
    | cons q rest =>
      unfold paragraphPairsGo at hp
      split_ifs at hp with g1
      · rcases List.mem_append.mp hp with hm | hm
        · split_ifs at hm with g2
          · simp only [List.mem_singleton] at hm
            subst hm
            exact g2.2.2
          · simp at hm
        · exact ih _ _ hm
      · exact ih _ _ hp

/-- Claim C3 (amended): every record in any crawl's output has question
length greater than 5, and the paragraph-pair strategy only emits answers
longer than 20 characters; the accordion, class-based and definition-list
strategies however require only a non-empty answer, so their records may
carry answers of at most 20 characters (see the counterexample). -/
theorem faqLengthInvariants :
    (∀ (website : String) (maxPages : Nat) (fetch : String → Option FetchResult),
      ∀ r ∈ (scrapeSync website maxPages fetch).faqs, 5 < r.question.length)
    ∧ ∀ (paragraphs : List String), ∀ p ∈ paragraphPairs paragraphs, 20 < p.2.length := by
  constructor
  · intro w M f
    show questionLenInv (scrapeState w M f)
    have h0 : questionLenInv (afterHomepage w f) := by
      unfold afterHomepage
      cases f (scrapeBase w) with
      | none => intro r hr; simp [initialState] at hr
      | some fr =>
        exact extractPairs_questionLenInv _ _ _
          (fun r hr => by simp [initialState] at hr)
    have h2 : questionLenInv (afterFaqPhase w f) :=
      faqPhase_questionLenInv _ _ _ h0
    simp only [scrapeState]
    split_ifs with hempty
    · exact crawlGo_questionLenInv _ _ _ _ _ _ _ h2
    · exact h2
  · intro ps p hp
    exact paragraphPairsGo_answer_len _ _ _ hp

/-- Counterexample to claim C1 as stated: with maxPages = 1 and a homepage
carrying one FAQ-classified link, the crawl processes 2 pages. -/
theorem scrape_pages_exceed_max_cex :
    1 < (scrapeSync "https://ex.com" 1 c1Fetch).pagesProcessed := by decide

/-- Counterexample to claim C3 as stated: the accordion (details/summary)
strategy stores a record whose non-empty answer has only 16 characters. -/
theorem accordion_short_answer_cex :
    ∃ r ∈ (extractAccordion freshSession accordionCexRoot "https://ex.com/faq").allFaqs,
      r.answer ≠ "" ∧ r.answer.length ≤ 20 :=
  ⟨⟨"Can I return my item later?", "Yes, within 30d.", "https://ex.com/faq"⟩,
    by decide, by decide, by decide⟩

/-- Counterexample to claim C4 as stated: the homepage has a link with
anchor text "FAQ" whose fetch yields a record, yet another homepage-linked
page (a second FAQ-classified link) is also fetched. -/
theorem faq_focused_fetches_other_links_cex :
    ("https://ex.com/faq", "faq") ∈ homepageLinks "https://ex.com" c4Fetch
    ∧ (extractPairs freshSession [goodPair] "https://ex.com/faq").allFaqs ≠ []
    ∧ c4Fetch "https://ex.com/faq" = some ⟨[goodPair], []⟩
    ∧ "https://ex.com/questions" ∈ (scrapeState "https://ex.com" 10 c4Fetch).visitedUrls
    ∧ "https://ex.com/questions" ≠ "https://ex.com/faq"
    ∧ "https://ex.com/questions" ≠ scrapeBase "https://ex.com" := by decide

/-- Counterexample to claim C5 as stated: the FAQ-focused branch is taken
and its one link visited, but the link's fetch fails, so faqPageFound is
false where the claim requires true. -/
theorem faq_page_found_fetch_failure_cex :
    homepageFaqLinks "https://ex.com" c1Fetch ≠ []
    ∧ "https://ex.com/faq" ∈ (scrapeState "https://ex.com" 10 c1Fetch).visitedUrls
    ∧ (scrapeSync "https://ex.com" 10 c1Fetch).faqPageFound = false := by decide

/-- Counterexample to claim C6 as stated: the empty string is classified
non-English (so _add_faq rejects the pair), not vacuously English. -/
theorem is_english_empty_cex :
    isEnglish "" = false
    ∧ addFaq freshSession "" "A perfectly fine English answer." "u" = freshSession := by
  decide

/-- Witness for faqDedupFirstWriterWins at a concrete crawl and a concrete
duplicate insertion. -/
theorem faqDedupFirstWriterWins_witness :
    List.Pairwise (fun r1 r2 => recKey r1 ≠ recKey r2)
      (scrapeSync "https://ex.com" 5 c10Fetch).faqs
    ∧ addFaq dupState "What is X here?" "A different second answer." "u" = dupState :=
  ⟨faqDedupFirstWriterWins.1 "https://ex.com" 5 c10Fetch,
   faqDedupFirstWriterWins.2 dupState "What is X here?" "A different second answer." "u"
     (by decide)⟩

/-- Witness for faqLengthInvariants at a concrete crawl record and a
concrete paragraph list. -/
theorem faqLengthInvariants_witness :
    5 < (Faq.mk "What is the return policy?"
          "You may return items within 30 days of purchase." "https://ex.com").question.length
    ∧ 20 < ("What is your return policy?",
        "You may return items within 30 days of purchase for a full refund.").2.length :=
  ⟨faqLengthInvariants.1 "https://ex.com" 10 c10Fetch
      (Faq.mk "What is the return policy?"
        "You may return items within 30 days of purchase." "https://ex.com") (by decide),
   faqLengthInvariants.2 goodParas
      ("What is your return policy?",
       "You may return items within 30 days of purchase for a full refund.") (by decide)⟩

/-- Witness for faqShortCircuit on a concrete two-FAQ-link site. -/
theorem faqShortCircuit_witness :
    (scrapeSync "https://ex.com" 10 c4Fetch).faqPageFound = true
    ∧ ∀ v ∈ (scrapeState "https://ex.com" 10 c4Fetch).visitedUrls,
        v = scrapeBase "https://ex.com"
        ∨ v ∈ (homepageFaqLinks "https://ex.com" c4Fetch).map Prod.fst :=
  faqShortCircuit "https://ex.com" 10 c4Fetch "https://ex.com/faq" ⟨[goodPair], []⟩
    (by decide) (by decide) (by decide)

/-- Witness for isEnglish_characterization on an all-CJK string. -/
theorem isEnglish_characterization_witness : isEnglish "日本語" = false :=
  isEnglish_characterization.2 "日本語" (by decide) (by decide)

/-- Witness for validInternalUrlDepthBound on a two-segment path. -/
theorem validInternalUrlDepthBound_witness :
    isValidInternalUrl "ex.com" "https://ex.com/support/billing" = false
    ∧ isValidInternalUrl "example.com" "https://example.com/support" = true :=
  ⟨validInternalUrlDepthBound.1 "ex.com" "https://ex.com/support/billing" (by decide),
   validInternalUrlDepthBound.2⟩

/-- Witness for addFaq_strips_leadB: a question beginning "Billing" is
stored (if at all) beginning "illing". -/
theorem addFaq_strips_leadB_witness :
    addFaq freshSession "Billing cycle" "A good answer." "u" = freshSession ∨
    addFaq freshSession "Billing cycle" "A good answer." "u" = { freshSession with
      seenQuestions := freshSession.seenQuestions ++
        [pyStrip (lowerStr (pyStrip (stripLeadingNum (pyStrip (restAfterLeadB "Billing cycle")))))],
      allFaqs := freshSession.allFaqs ++
        [⟨pyStrip (stripLeadingNum (pyStrip (restAfterLeadB "Billing cycle"))),
          "A good answer.", "u"⟩] } :=
  addFaq_strips_leadB freshSession "Billing cycle" "A good answer." "u" (by decide)

/-- Witness for homepageOnlyCrawl on a concrete homepage-only site. -/
theorem homepageOnlyCrawl_witness :
    (scrapeState "https://ex.com" 10 c10Fetch).visitedUrls = [scrapeBase "https://ex.com"]
    ∧ (scrapeSync "https://ex.com" 10 c10Fetch).pagesProcessed = 1
    ∧ (scrapeSync "https://ex.com" 10 c10Fetch).faqPageFound = false :=
  homepageOnlyCrawl "https://ex.com" 10 c10Fetch (by decide) (by decide)

theorem listStarts_append_self (t r : List Char) : listStarts t (t ++ r) = true := by
  induction t with
  | nil => rfl
  | cons c cs ih => simp [listStarts, ih]

theorem listStarts_eq_append (t : List Char) :
    ∀ s : List Char, listStarts t s = true → ∃ r, s = t ++ r := by
  induction t with
  | nil => intro s _; exact ⟨s, rfl⟩
  | cons c cs ih =>
    intro s h
    cases s with
    | nil => simp [listStarts] at h
    | cons d ds =>
      simp only [listStarts, Bool.and_eq_true, beq_iff_eq] at h
      obtain ⟨r, hr⟩ := ih ds h.2
      exact ⟨r, by rw [hr, h.1.symm]; rfl⟩

theorem takeWhile_append_all (p : Char → Bool) (l1 l2 : List Char)
    (h : ∀ c ∈ l1, p c = true) :
    (l1 ++ l2).takeWhile p = l1 ++ l2.takeWhile p := by
  induction l1 with
  | nil => rfl
  | cons c cs ih =>
    simp only [List.cons_append, List.takeWhile_cons]
    rw [if_pos (h c (List.mem_cons_self _ _)),
      ih (fun x hx => h x (List.mem_cons_of_mem _ hx))]

theorem dropWhile_append_all (p : Char → Bool) (l1 l2 : List Char)
    (h : ∀ c ∈ l1, p c = true) :
    (l1 ++ l2).dropWhile p = l2.dropWhile p := by
  induction l1 with
  | nil => rfl
  | cons c cs ih =>
    simp only [List.cons_append, List.dropWhile_cons]
    rw [if_pos (h c (List.mem_cons_self _ _)),
      ih (fun x hx => h x (List.mem_cons_of_mem _ hx))]

theorem findIdx_append_first (c0 : Char) (l1 l2 : List Char)
    (h : ∀ c ∈ l1, c ≠ c0) :
    ∀ i, List.findIdx? (· = c0) (l1 ++ c0 :: l2) i = some (i + l1.length) := by
  induction l1 with
  | nil => intro i; simp [List.findIdx?_cons]
  | cons c cs ih =>
    intro i
    rw [List.cons_append, List.findIdx?_cons,
      if_neg (by simp [h c (List.mem_cons_self _ _)]),
      ih (fun x hx => h x (List.mem_cons_of_mem _ hx)) (i + 1)]
    congr 1
    simp
    omega

theorem findIdx_none_of (p : Char → Bool) (l : List Char) (h : ∀ c ∈ l, p c = false) :
    l.findIdx? p = none := by
  rw [List.findIdx?_eq_none_iff]
  intro x hx
  simp [h x hx]

theorem findIdx_ge (p : Char → Bool) (l : List Char) :
    ∀ s i, List.findIdx? p l s = some i → s ≤ i := by
  induction l with
  | nil => intro s i h; simp [List.findIdx?_nil] at h
  | cons c cs ih =>
    intro s i h
    rw [List.findIdx?_cons] at h
    split_ifs at h with hc
    · simp only [Option.some.injEq] at h
      omega
    · have := ih (s + 1) i h
      omega

theorem findIdx_take_not (p : Char → Bool) (l : List Char) :
    ∀ s i, List.findIdx? p l s = some i → ∀ x ∈ l.take (i - s), p x = false := by
  induction l with
  | nil => intro s i h; simp [List.findIdx?_nil] at h
  | cons c cs ih =>
    intro s i h x hx
    rw [List.findIdx?_cons] at h
    split_ifs at h with hc
    · simp only [Option.some.injEq] at h
      rw [← h] at hx
      simp at hx
    · have hge := findIdx_ge p cs (s + 1) i h
      have hsub : i - s = (i - (s + 1)) + 1 := by omega
      rw [hsub, List.take_succ_cons] at hx
      rcases List.mem_cons.mp hx with hxc | hxc
      · subst hxc
        exact Bool.eq_false_iff.mpr hc
      · exact ih (s + 1) i h x hxc

theorem dropWhile_head_false (p : Char → Bool) (l : List Char) :
    ∀ c cs, l.dropWhile p = c :: cs → p c = false := by
  induction l with
  | nil => intro c cs h; simp [List.dropWhile] at h
  | cons d ds ih =>
    intro c cs h
    rw [List.dropWhile_cons] at h
    split_ifs at h with hd
    · exact ih c cs h
    · obtain ⟨rfl, _⟩ := List.cons.injEq _ _ _ _ ▸ h
      exact Bool.eq_false_iff.mpr hd

theorem dropTrailing_eq_self (p : Char → Bool) (l : List Char)
    (h : ∀ c, l.getLast? = some c → p c = false) : dropTrailing p l = l := by
  unfold dropTrailing
  cases hl : l.reverse with
  | nil =>
    have : l = [] := by
      have := congrArg List.reverse hl
      simpa using this
    simp [this]
  | cons c cs =>
    have hlast : l.getLast? = some c := by
      rw [← List.head?_reverse, hl]
      rfl
    rw [List.dropWhile_cons, if_neg (by simp [h c hlast])]
    rw [← hl, List.reverse_reverse]

theorem urlsplit_http_shape (sch netloc pt : List Char)
    (hs : sch = "http".data ∨ sch = "https".data)
    (hnet : ∀ c ∈ netloc, netlocDelim c = false ∧ urlOkChar c = true)
    (hpath : ∀ c ∈ '/' :: pt, c ≠ '#' ∧ c ≠ '?' ∧ urlOkChar c = true) :
    urlsplitModel ⟨sch ++ ':' :: '/' :: '/' :: (netloc ++ '/' :: pt)⟩ "" =
      (⟨sch⟩, ⟨netloc⟩, ⟨'/' :: pt⟩, "", "") := by
  have hfilter : (sch ++ ':' :: '/' :: '/' :: (netloc ++ '/' :: pt)).filter urlOkChar
      = sch ++ ':' :: '/' :: '/' :: (netloc ++ '/' :: pt) := by
    rw [List.filter_eq_self]
    intro c hc
    simp only [List.mem_append, List.mem_cons] at hc
    rcases hc with h | rfl | rfl | rfl | h | rfl | h
    · rcases hs with rfl | rfl
      · exact (by decide : ∀ c ∈ "http".data, urlOkChar c = true) c h
      · exact (by decide : ∀ c ∈ "https".data, urlOkChar c = true) c h
    · decide
    · decide
    · decide
    · exact (hnet c h).2
    · decide
    · exact (hpath c (List.mem_cons_of_mem _ h)).2.2
  have hreassoc : sch ++ ':' :: '/' :: '/' :: (netloc ++ '/' :: pt)
      = (sch ++ [':']) ++ ('/' :: '/' :: (netloc ++ '/' :: pt)) := by simp
  have hfind : List.findIdx? (· = ':') (sch ++ ':' :: '/' :: '/' :: (netloc ++ '/' :: pt)) 0
      = some sch.length := by
    have hno : ∀ c ∈ sch, c ≠ ':' := by
      rcases hs with rfl | rfl
      · decide
      · decide
    simpa using findIdx_append_first ':' sch ('/' :: '/' :: (netloc ++ '/' :: pt)) hno 0
  have htake : (sch ++ ':' :: '/' :: '/' :: (netloc ++ '/' :: pt)).take sch.length = sch :=
    List.take_left sch _
  have hdrop : (sch ++ ':' :: '/' :: '/' :: (netloc ++ '/' :: pt)).drop (sch.length + 1)
      = '/' :: '/' :: (netloc ++ '/' :: pt) := by
    rw [hreassoc]
    have hlen : sch.length + 1 = (sch ++ [':']).length := by simp
    rw [hlen, List.drop_left]
  have hcond : (decide (0 < sch.length) && headIsAlpha (sch ++ ':' :: '/' :: '/' :: (netloc ++ '/' :: pt))
      && ((List.drop 1 sch).all schemeChar)) = true := by
    rcases hs with rfl | rfl
    · rw [(by decide : "http".data = ['h', 't', 't', 'p'])]
      rfl
    · rw [(by decide : "https".data = ['h', 't', 't', 'p', 's'])]
      rfl
  have hlower : sch.map lowerChar = sch := by
    rcases hs with rfl | rfl
    · decide
    · decide
  have hnettake : (netloc ++ '/' :: pt).takeWhile (fun c => !netlocDelim c) = netloc := by
    rw [takeWhile_append_all _ _ _ (fun c hc => by simp [(hnet c hc).1])]
    rw [List.takeWhile_cons, if_neg (by decide)]
    simp
  have hnetdrop : (netloc ++ '/' :: pt).dropWhile (fun c => !netlocDelim c) = '/' :: pt := by
    rw [dropWhile_append_all _ _ _ (fun c hc => by simp [(hnet c hc).1])]
    rw [List.dropWhile_cons, if_neg (by decide)]
  have hfrag : List.findIdx? (· = '#') ('/' :: pt) 0 = none := by
    apply findIdx_none_of
    intro c hc
    simp [(hpath c hc).1]
  have hquery : List.findIdx? (· = '?') ('/' :: pt) 0 = none := by
    apply findIdx_none_of
    intro c hc
    simp [(hpath c hc).2.1]
  have hss : listStarts ['/', '/'] ('/' :: '/' :: (netloc ++ '/' :: pt)) = true := rfl
  have hdrop2 : List.drop 2 ('/' :: '/' :: (netloc ++ '/' :: pt)) = netloc ++ '/' :: pt := rfl
  unfold urlsplitModel
  simp only [hfilter, hfind, htake]
  simp only [hcond, if_true, hlower, hdrop]
  simp only [hss, if_true, hdrop2, hnettake, hnetdrop]
  simp only [hfrag, hquery]

theorem urlparse_http_shape (sch netloc pt : List Char)
    (hs : sch = "http".data ∨ sch = "https".data)
    (hnet : ∀ c ∈ netloc, netlocDelim c = false ∧ urlOkChar c = true)
    (hpath : ∀ c ∈ '/' :: pt, c ≠ '#' ∧ c ≠ '?' ∧ c ≠ ';' ∧ urlOkChar c = true) :
    urlparseModel ⟨sch ++ ':' :: '/' :: '/' :: (netloc ++ '/' :: pt)⟩ "" =
      ⟨⟨sch⟩, ⟨netloc⟩, ⟨'/' :: pt⟩, "", "", ""⟩ := by
  unfold urlparseModel
  rw [urlsplit_http_shape sch netloc pt hs hnet
    (fun c hc => ⟨(hpath c hc).1, (hpath c hc).2.1, (hpath c hc).2.2.2⟩)]
  have hnc : ('/' :: pt).contains ';' = false := by
    have : ';' ∉ '/' :: pt := fun hm => (hpath ';' hm).2.2.1 rfl
    simpa [List.contains, List.elem_eq_mem] using this
  simp only [hnc]
  rfl

theorem string_ext_of_data : ∀ (x y : String), x.data = y.data → x = y := by
  intro x y h
  cases x
  cases y
  simp only [] at h
  rw [h]

theorem strAppendData (a b : String) : (a ++ b).data = a.data ++ b.data := rfl

theorem normalizeUrl_canonical_fixed (base : String) (sch netloc pt : List Char)
    (hs : sch = "http".data ∨ sch = "https".data)
    (hnet : ∀ c ∈ netloc, netlocDelim c = false ∧ urlOkChar c = true)
    (hpath : ∀ c ∈ '/' :: pt, c ≠ '#' ∧ c ≠ '?' ∧ c ≠ ';' ∧ urlOkChar c = true)
    (hlast : pt = [] ∨ ('/' :: pt).getLast? ≠ some '/') :
    normalizeUrl base ⟨sch ++ ':' :: '/' :: '/' :: (netloc ++ '/' :: pt)⟩
      = ⟨sch ++ ':' :: '/' :: '/' :: (netloc ++ '/' :: pt)⟩ := by
  have hstart : (strStarts ⟨sch ++ ':' :: '/' :: '/' :: (netloc ++ '/' :: pt)⟩ "http://"
      || strStarts ⟨sch ++ ':' :: '/' :: '/' :: (netloc ++ '/' :: pt)⟩ "https://") = true := by
    rcases hs with rfl | rfl
    · have h1 : strStarts ⟨"http".data ++ ':' :: '/' :: '/' :: (netloc ++ '/' :: pt)⟩ "http://"
          = true := listStarts_append_self "http://".data (netloc ++ '/' :: pt)
      rw [h1, Bool.true_or]
    · have h1 : strStarts ⟨"https".data ++ ':' :: '/' :: '/' :: (netloc ++ '/' :: pt)⟩ "https://"
          = true := listStarts_append_self "https://".data (netloc ++ '/' :: pt)
      rw [h1, Bool.or_true]
  unfold normalizeUrl
  simp only [hstart, if_true]
  rw [urlparse_http_shape sch netloc pt hs hnet hpath]
  rcases hlast with rfl | hlast
  · have hstrip : pyRstripP (fun x => decide (x = '/')) ⟨['/']⟩ = "" := by decide
    simp only [hstrip, if_pos rfl]
    apply string_ext_of_data
    simp only [strAppendData]
    simp
  · have hstrip : pyRstripP (fun x => decide (x = '/')) ⟨'/' :: pt⟩ = ⟨'/' :: pt⟩ := by
      unfold pyRstripP
      rw [dropTrailing_eq_self]
      intro c hc
      simp only [hc] at hlast
      simp only [decide_eq_false_iff_not]
      intro hcc
      exact hlast (by rw [hcc])
    simp only [hstrip]
    have hne : (⟨'/' :: pt⟩ : String) ≠ "" := by
      intro h
      have := congrArg String.data h
      simp at this
    rw [if_neg hne]
    apply string_ext_of_data
    simp only [strAppendData]
    simp

theorem filter_append_all (p : Char → Bool) (l1 l2 : List Char)
    (h : ∀ c ∈ l1, p c = true) :
    (l1 ++ l2).filter p = l1 ++ l2.filter p := by
  rw [List.filter_append, List.filter_eq_self.mpr h]

theorem take_head_cases (l : List Char) (n : Nat) :
    l.take n = [] ∨ (l.take n).head? = l.head? := by
  cases l with
  | nil => left; simp
  | cons c cs =>
    cases n with
    | zero => left; rfl
    | succ m => right; rfl

theorem take_head_cases2 (l : List Char) (i j : Nat) :
    (l.take i).take j = [] ∨ ((l.take i).take j).head? = l.head? := by
  rcases take_head_cases (l.take i) j with h | h
  · exact Or.inl h
  · rcases take_head_cases l i with h2 | h2
    · left
      rw [h2]
      simp
    · right
      rw [h, h2]

theorem head_slash_of (rest path : List Char)
    (hhead : path = [] ∨ path.head? = rest.head?)
    (hdelim : ∀ d, rest.head? = some d → netlocDelim d = true)
    (hno : ∀ c ∈ path, c ≠ '#' ∧ c ≠ '?') :
    path = [] ∨ path.head? = some '/' := by
  rcases hhead with h | h
  · exact Or.inl h
  · cases hp : path with
    | nil => exact Or.inl rfl
    | cons e es =>
      right
      rw [hp] at h
      have hdel : netlocDelim e = true := hdelim e h.symm
      have hmem : e ∈ path := by rw [hp]; exact List.mem_cons_self _ _
      have hne := hno e hmem
      have he : e = '/' := by
        simp only [netlocDelim, Bool.or_eq_true, decide_eq_true_eq] at hdel
        rcases hdel with (h2 | h2) | h2
        · exact h2
        · exact absurd h2 hne.2
        · exact absurd h2 hne.1
      rw [he]
      rfl

theorem urlsplit_http_props (sch r : List Char)
    (hs : sch = "http".data ∨ sch = "https".data) :
    ∃ netloc path query fragment : List Char,
      urlsplitModel ⟨sch ++ ':' :: '/' :: '/' :: r⟩ ""
        = (⟨sch⟩, ⟨netloc⟩, ⟨path⟩, ⟨query⟩, ⟨fragment⟩) ∧
      (∀ c ∈ netloc, netlocDelim c = false ∧ urlOkChar c = true ∧ c ∈ r) ∧
      (path = [] ∨ path.head? = some '/') ∧
      (∀ c ∈ path, c ≠ '#' ∧ c ≠ '?' ∧ urlOkChar c = true ∧ c ∈ r) := by
  have hpre : ∀ c ∈ sch ++ [':', '/', '/'], urlOkChar c = true := by
    intro c hc
    simp only [List.mem_append, List.mem_cons] at hc
    rcases hc with h | rfl | rfl | rfl | h
    · rcases hs with rfl | rfl
      · exact (by decide : ∀ c ∈ "http".data, urlOkChar c = true) c h
      · exact (by decide : ∀ c ∈ "https".data, urlOkChar c = true) c h
    · decide
    · decide
    · decide
    · simp at h
  have hfilter : (sch ++ ':' :: '/' :: '/' :: r).filter urlOkChar
      = sch ++ ':' :: '/' :: '/' :: r.filter urlOkChar := by
    have h1 : sch ++ ':' :: '/' :: '/' :: r = (sch ++ [':', '/', '/']) ++ r := by simp
    have h2 : sch ++ ':' :: '/' :: '/' :: r.filter urlOkChar
        = (sch ++ [':', '/', '/']) ++ r.filter urlOkChar := by simp
    rw [h1, h2, filter_append_all _ _ _ hpre]
  set r' := r.filter urlOkChar with hr'
  have hrsub : ∀ c ∈ r', urlOkChar c = true ∧ c ∈ r := by
    intro c hc
    exact ⟨List.of_mem_filter hc, List.mem_of_mem_filter hc⟩
  have hfind : List.findIdx? (· = ':') (sch ++ ':' :: '/' :: '/' :: r') 0
      = some sch.length := by
    have hno : ∀ c ∈ sch, c ≠ ':' := by
      rcases hs with rfl | rfl
      · decide
      · decide
    simpa using findIdx_append_first ':' sch ('/' :: '/' :: r') hno 0
  have htake : (sch ++ ':' :: '/' :: '/' :: r').take sch.length = sch :=
    List.take_left sch _
  have hdrop : (sch ++ ':' :: '/' :: '/' :: r').drop (sch.length + 1)
      = '/' :: '/' :: r' := by
    have h1 : sch ++ ':' :: '/' :: '/' :: r' = (sch ++ [':']) ++ ('/' :: '/' :: r') := by simp
    have hlen : sch.length + 1 = (sch ++ [':']).length := by simp
    rw [h1, hlen, List.drop_left]
  have hcond : (decide (0 < sch.length)
      && headIsAlpha (sch ++ ':' :: '/' :: '/' :: r')
      && ((List.drop 1 sch).all schemeChar)) = true := by
    rcases hs with rfl | rfl
    · rw [(by decide : "http".data = ['h', 't', 't', 'p'])]
      rfl
    · rw [(by decide : "https".data = ['h', 't', 't', 'p', 's'])]
      rfl
  have hlower : sch.map lowerChar = sch := by
    rcases hs with rfl | rfl
    · decide
    · decide
  have hss : listStarts ['/', '/'] ('/' :: '/' :: r') = true := rfl
  have hdrop2 : List.drop 2 ('/' :: '/' :: r') = r' := rfl
  set netloc := r'.takeWhile (fun c => !netlocDelim c) with hnetdef
  set rest := r'.dropWhile (fun c => !netlocDelim c) with hrestdef
  have hnetprops : ∀ c ∈ netloc, netlocDelim c = false ∧ urlOkChar c = true ∧ c ∈ r := by
    intro c hc
    have hp := List.mem_takeWhile_imp hc
    have hm := List.takeWhile_subset _ hc
    refine ⟨?_, (hrsub c hm).1, (hrsub c hm).2⟩
    simpa using hp
  have hrestsub : ∀ c ∈ rest, urlOkChar c = true ∧ c ∈ r := by
    intro c hc
    exact hrsub c (List.dropWhile_subset _ hc)
  have hrest_head : ∀ d, rest.head? = some d → netlocDelim d = true := by
    intro d hd
    cases hr2 : rest with
    | nil => rw [hr2] at hd; simp at hd
    | cons x xs =>
      rw [hr2] at hd
      simp only [List.head?_cons, Option.some.injEq] at hd
      subst hd
      have := dropWhile_head_false (fun c => !netlocDelim c) r' x xs (by rw [← hrestdef]; exact hr2)
      simpa using this
  rcases hfragidx : List.findIdx? (· = '#') rest 0 with _ | i
  case _ =>
    have hnof : ∀ c ∈ rest, c ≠ '#' := by
      intro c hc hcc
      have := List.findIdx?_eq_none_iff.mp hfragidx c hc
      simp [hcc] at this
    rcases hqidx : List.findIdx? (· = '?') rest 0 with _ | j
    case _ =>
      have hnoq : ∀ c ∈ rest, c ≠ '?' := by
        intro c hc hcc
        have := List.findIdx?_eq_none_iff.mp hqidx c hc
        simp [hcc] at this
      refine ⟨netloc, rest, [], [], ?_, hnetprops, ?_, ?_⟩
      · unfold urlsplitModel
        simp only [hfilter, hfind, htake]
        simp only [hcond, if_true, hlower, hdrop]
        simp only [hss, if_true, hdrop2]
        simp only [hfragidx, hqidx]
      · exact head_slash_of rest rest (Or.inr rfl) hrest_head
          (fun c hc => ⟨hnof c hc, hnoq c hc⟩)
      · intro c hc
        exact ⟨hnof c hc, hnoq c hc, (hrestsub c hc).1, (hrestsub c hc).2⟩
    case _ =>
      have hq0 := findIdx_take_not _ _ 0 j hqidx
      simp only [Nat.sub_zero] at hq0
      have hnoq : ∀ c ∈ rest.take j, c ≠ '?' := by
        intro c hc hcc
        have := hq0 c hc
        simp [hcc] at this
      refine ⟨netloc, rest.take j, rest.drop (j + 1), [], ?_, hnetprops, ?_, ?_⟩
      · unfold urlsplitModel
        simp only [hfilter, hfind, htake]
        simp only [hcond, if_true, hlower, hdrop]
        simp only [hss, if_true, hdrop2]
        simp only [hfragidx, hqidx]
      · exact head_slash_of rest (rest.take j) (take_head_cases rest j) hrest_head
          (fun c hc => ⟨hnof c (List.take_subset _ _ hc), hnoq c hc⟩)
      · intro c hc
        have hcr := List.take_subset _ _ hc
        exact ⟨hnof c hcr, hnoq c hc, (hrestsub c hcr).1, (hrestsub c hcr).2⟩
  case _ =>
    have hf0 := findIdx_take_not _ _ 0 i hfragidx
    simp only [Nat.sub_zero] at hf0
    have hnof : ∀ c ∈ rest.take i, c ≠ '#' := by
      intro c hc hcc
      have := hf0 c hc
      simp [hcc] at this
    rcases hqidx : List.findIdx? (· = '?') (rest.take i) 0 with _ | j
    case _ =>
      have hnoq : ∀ c ∈ rest.take i, c ≠ '?' := by
        intro c hc hcc
        have := List.findIdx?_eq_none_iff.mp hqidx c hc
        simp [hcc] at this
      refine ⟨netloc, rest.take i, [], rest.drop (i + 1), ?_, hnetprops, ?_, ?_⟩
      · unfold urlsplitModel
        simp only [hfilter, hfind, htake]
        simp only [hcond, if_true, hlower, hdrop]
        simp only [hss, if_true, hdrop2]
        simp only [hfragidx, hqidx]
      · exact head_slash_of rest (rest.take i) (take_head_cases rest i) hrest_head
          (fun c hc => ⟨hnof c hc, hnoq c hc⟩)
      · intro c hc
        have hcr := List.take_subset _ _ hc
        exact ⟨hnof c hc, hnoq c hc, (hrestsub c hcr).1, (hrestsub c hcr).2⟩
    case _ =>
      have hq0 := findIdx_take_not _ _ 0 j hqidx
      simp only [Nat.sub_zero] at hq0
      have hnoq : ∀ c ∈ (rest.take i).take j, c ≠ '?' := by
        intro c hc hcc
        have := hq0 c hc
        simp [hcc] at this
      refine ⟨netloc, (rest.take i).take j, (rest.take i).drop (j + 1),
        rest.drop (i + 1), ?_, hnetprops, ?_, ?_⟩
      · unfold urlsplitModel
        simp only [hfilter, hfind, htake]
        simp only [hcond, if_true, hlower, hdrop]
        simp only [hss, if_true, hdrop2]
        simp only [hfragidx, hqidx]
      · exact head_slash_of rest ((rest.take i).take j) (take_head_cases2 rest i j) hrest_head
          (fun c hc => ⟨hnof c (List.take_subset _ _ hc), hnoq c hc⟩)
      · intro c hc
        have hc2 := List.take_subset _ _ hc
        have hcr := List.take_subset _ _ hc2
        exact ⟨hnof c hc2, hnoq c hc, (hrestsub c hcr).1, (hrestsub c hcr).2⟩

theorem urlparse_http_props (sch r : List Char)
    (hs : sch = "http".data ∨ sch = "https".data)
    (hnosemi : ∀ c ∈ r, c ≠ ';') :
    ∃ netloc path query fragment : List Char,
      urlparseModel ⟨sch ++ ':' :: '/' :: '/' :: r⟩ ""
        = ⟨⟨sch⟩, ⟨netloc⟩, ⟨path⟩, "", ⟨query⟩, ⟨fragment⟩⟩ ∧
      (∀ c ∈ netloc, netlocDelim c = false ∧ urlOkChar c = true) ∧
      (path = [] ∨ path.head? = some '/') ∧
      (∀ c ∈ path, c ≠ '#' ∧ c ≠ '?' ∧ c ≠ ';' ∧ urlOkChar c = true) := by
  obtain ⟨netloc, path, q, f, heq, hn, hh, hp⟩ := urlsplit_http_props sch r hs
  have hnc : path.contains ';' = false := by
    have : ';' ∉ path := fun hm => hnosemi ';' (hp ';' hm).2.2.2 rfl
    simpa [List.contains, List.elem_eq_mem] using this
  refine ⟨netloc, path, q, f, ?_, fun c hc => ⟨(hn c hc).1, (hn c hc).2.1⟩, hh,
    fun c hc => ⟨(hp c hc).1, (hp c hc).2.1, fun hcc => hnosemi c (hp c hc).2.2.2 hcc,
      (hp c hc).2.2.1⟩⟩
  unfold urlparseModel
  rw [heq]
  simp only [hnc]
  rfl

theorem dropTrailing_subset (p : Char → Bool) (l : List Char) :
    ∀ x ∈ dropTrailing p l, x ∈ l := by
  intro x hx
  unfold dropTrailing at hx
  have h1 : x ∈ l.reverse.dropWhile p := List.mem_reverse.mp hx
  exact List.mem_reverse.mp (List.dropWhile_subset p h1)

theorem dropTrailing_split (p : Char → Bool) (l : List Char) :
    l = dropTrailing p l ++ (l.reverse.takeWhile p).reverse := by
  unfold dropTrailing
  rw [← List.reverse_append, List.takeWhile_append_dropWhile, List.reverse_reverse]

theorem dropTrailing_head (p : Char → Bool) (l : List Char) (c : Char) (cs : List Char)
    (h : dropTrailing p l = c :: cs) : l.head? = some c := by
  have hsplit := dropTrailing_split p l
  rw [h] at hsplit
  rw [hsplit]
  rfl

theorem dropTrailing_getLast (p : Char → Bool) (l : List Char) (c : Char) (cs : List Char)
    (h : dropTrailing p l = c :: cs) :
    ∀ d, (c :: cs).getLast? = some d → p d = false := by
  intro d hd
  unfold dropTrailing at h
  have hD : l.reverse.dropWhile p = (c :: cs).reverse := by
    rw [← h, List.reverse_reverse]
  have hh : (c :: cs).reverse.head? = some d := by
    rw [List.head?_reverse]
    exact hd
  cases hrev : (c :: cs).reverse with
  | nil => rw [hrev] at hh; simp at hh
  | cons x xs =>
    rw [hrev] at hh
    simp only [List.head?_cons, Option.some.injEq] at hh
    rw [← hh]
    exact dropWhile_head_false p l.reverse x xs (by rw [hD, hrev])

theorem normalizeUrl_canonical_shape (base u : String)
    (hstart : (strStarts u "http://" || strStarts u "https://") = true)
    (hsemi : ∀ c ∈ u.data, c ≠ ';') :
    ∃ sch netloc pt : List Char,
      (sch = "http".data ∨ sch = "https".data) ∧
      normalizeUrl base u = ⟨sch ++ ':' :: '/' :: '/' :: (netloc ++ '/' :: pt)⟩ ∧
      (∀ c ∈ netloc, netlocDelim c = false ∧ urlOkChar c = true) ∧
      (∀ c ∈ '/' :: pt, c ≠ '#' ∧ c ≠ '?' ∧ c ≠ ';' ∧ urlOkChar c = true) ∧
      (pt = [] ∨ ('/' :: pt).getLast? ≠ some '/') := by
  have hdecomp : ∃ sch r : List Char, (sch = "http".data ∨ sch = "https".data)
      ∧ u.data = sch ++ ':' :: '/' :: '/' :: r ∧ (∀ c ∈ r, c ≠ ';') := by
    rw [Bool.or_eq_true] at hstart
    rcases hstart with h | h
    · obtain ⟨r, hr⟩ := listStarts_eq_append "http://".data u.data h
      refine ⟨"http".data, r, Or.inl rfl, by rw [hr]; rfl, ?_⟩
      intro c hc
      refine hsemi c ?_
      rw [hr]
      exact List.mem_append_right _ hc
    · obtain ⟨r, hr⟩ := listStarts_eq_append "https://".data u.data h
      refine ⟨"https".data, r, Or.inr rfl, by rw [hr]; rfl, ?_⟩
      intro c hc
      refine hsemi c ?_
      rw [hr]
      exact List.mem_append_right _ hc
  obtain ⟨sch, r, hs, hud, hrsemi⟩ := hdecomp
  have hu : u = ⟨sch ++ ':' :: '/' :: '/' :: r⟩ := string_ext_of_data _ _ hud
  obtain ⟨netloc, path, q, f, heq, hn, hh, hp⟩ := urlparse_http_props sch r hs hrsemi
  subst hu
  unfold normalizeUrl
  simp only [hstart, if_true, heq]
  cases hdt : dropTrailing (fun x => decide (x = '/')) path with
  | nil =>
    have hstrip : pyRstripP (fun x => decide (x = '/')) (⟨path⟩ : String) = "" := by
      unfold pyRstripP
      rw [hdt]
    refine ⟨sch, netloc, [], hs, ?_, fun c hc => ⟨(hn c hc).1, (hn c hc).2⟩,
      by decide, Or.inl rfl⟩
    simp only [hstrip, if_pos rfl]
    apply string_ext_of_data
    simp only [strAppendData]
    simp
  | cons e es =>
    have hheadp : path.head? = some e :=
      dropTrailing_head (fun x => decide (x = '/')) path e es hdt
    have hpathne : path ≠ [] := by
      intro h0
      rw [h0] at hheadp
      simp at hheadp
    have he : e = '/' := by
      rcases hh with h0 | h0
      · exact absurd h0 hpathne
      · rw [h0] at hheadp
        simpa using hheadp.symm
    subst he
    have hstrip : pyRstripP (fun x => decide (x = '/')) (⟨path⟩ : String) = ⟨'/' :: es⟩ := by
      unfold pyRstripP
      rw [hdt]
    refine ⟨sch, netloc, es, hs, ?_, fun c hc => ⟨(hn c hc).1, (hn c hc).2⟩, ?_, ?_⟩
    · simp only [hstrip]
      rw [if_neg (by
        intro h0
        have := congrArg String.data h0
        simp at this)]
      apply string_ext_of_data
      simp only [strAppendData]
      simp
    · intro c hc
      have hcp : c ∈ path := by
        apply dropTrailing_subset (fun x => decide (x = '/')) path
        rw [hdt]
        exact hc
      exact hp c hcp
    · right
      intro h0
      have := dropTrailing_getLast (fun x => decide (x = '/')) path '/' es hdt '/' h0
      simp at this

/-- Claim C7 (amended): URL normalization is idempotent for every absolute
http(s) URL that contains no semicolon; for URLs whose path carries a
semicolon the params split of urlparse breaks idempotence (see the
counterexample). -/
theorem normalizeUrlIdempotent (base u : String)
    (h1 : strStarts u "http://" = true ∨ strStarts u "https://" = true)
    (h2 : ∀ c ∈ u.data, c ≠ ';') :
    normalizeUrl base (normalizeUrl base u) = normalizeUrl base u := by
  have hstart : (strStarts u "http://" || strStarts u "https://") = true := by
    rcases h1 with h | h <;> simp [h]
  obtain ⟨sch, netloc, pt, hs, heq, hn, hp, hl⟩ :=
    normalizeUrl_canonical_shape base u hstart h2
  rw [heq]
  exact normalizeUrl_canonical_fixed base sch netloc pt hs hn hp hl

/-- Counterexample to claim C7 as stated: urlparse splits params off the
last path segment, so normalizing "https://ex.com/a;b/" twice gives
"https://ex.com/a;b" and then "https://ex.com/a". -/
theorem normalize_url_not_idempotent_cex :
    normalizeUrl "https://ex.com" (normalizeUrl "https://ex.com" "https://ex.com/a;b/")
      ≠ normalizeUrl "https://ex.com" "https://ex.com/a;b/" := by decide

/-- Witness for normalizeUrlIdempotent at a concrete URL. -/
theorem normalizeUrlIdempotent_witness :
    normalizeUrl "https://ex.com" (normalizeUrl "https://ex.com" "https://ex.com/about/")
      = normalizeUrl "https://ex.com" "https://ex.com/about/" :=
  normalizeUrlIdempotent "https://ex.com" "https://ex.com/about/"
    (Or.inr (by decide)) (by decide)

/-- Fuel saturation for the full-crawl loop: whenever the guard bound is
already within reach of the fuel (in particular always when fuel equals
maxPages), adding one more unit of fuel cannot change the result; the
fuel-indexed function therefore computes the while-loop's limit. -/
theorem crawlGo_fuel_saturated (base domain : String) (maxPages : Nat)
    (f : String → Option FetchResult) :
    ∀ (fuel : Nat) (toCrawl : List (String × String)) (s : ScrapeState),
      maxPages ≤ s.visitedUrls.length + fuel →
      crawlGo base domain maxPages f (fuel + 1) toCrawl s
        = crawlGo base domain maxPages f fuel toCrawl s := by
  intro fuel
  induction fuel with
  | zero =>
    intro toCrawl s h
    show crawlGo base domain maxPages f 1 toCrawl s = s
    unfold crawlGo
    rw [if_pos (by omega)]
  | succ fuel ih =>
    intro toCrawl s h
    show crawlGo base domain maxPages f (fuel + 1 + 1) toCrawl s
        = crawlGo base domain maxPages f (fuel + 1) toCrawl s
    conv =>
      lhs
      unfold crawlGo
    conv =>
      rhs
      unfold crawlGo
    split_ifs with g1
    · rfl
    · cases hp : popNext s.visitedUrls toCrawl with
      | none => rfl
      | some x =>
        obtain ⟨l, rest⟩ := x
        simp only []
        cases hf : f l.1 with
        | none =>
          apply ih
          simp only [List.length_append, List.length_singleton]
          omega
        | some fr =>
          apply ih
          rw [extractPairs_visited]
          simp only [List.length_append, List.length_singleton]
          omega

/-- Fuel saturation for the paragraph-pair loop: fuel covering the list
length is enough, so the function with fuel = length computes the
while-loop's limit. -/
theorem paragraphPairsGo_fuel_saturated :
    ∀ (fuel : Nat) (ps : List String), ps.length ≤ fuel →
      paragraphPairsGo (fuel + 1) ps = paragraphPairsGo fuel ps := by
  intro fuel
  induction fuel with
  | zero =>
    intro ps h
    have : ps = [] := List.length_eq_zero.mp (by omega)
    subst this
    rfl
  | succ fuel ih =>
    intro ps h
    cases ps with
    | nil => rfl
    | cons p rest =>
      show paragraphPairsGo (fuel + 1 + 1) (p :: rest) = paragraphPairsGo (fuel + 1) (p :: rest)
      unfold paragraphPairsGo
      split_ifs with g1
      · have hlen : (rest.drop (rest.takeWhile (fun t => !looksLikeQuestion t)).length).length
            ≤ fuel := by
          have h1 := List.length_drop (rest.takeWhile (fun t => !looksLikeQuestion t)).length rest
          simp only [List.length_cons] at h
          omega
        simp only [ih _ hlen]
      · have hlen : rest.length ≤ fuel := by
          simp only [List.length_cons] at h
          omega
        simp only [ih _ hlen]
